import Mathlib

/-!
# Verification of the space-shooter simulation core (`src/components/game/GameCanvas.tsx`)

This file is a shallow embedding of the per-frame simulation engine of the
2D arcade shooter: the entity model, the `update` step (player movement,
player fire, enemy spawning, the enemy pass, the bullet pass, particles,
floating texts, stars) and the collision/scoring rules, translated from the
TypeScript source.

Modelling conventions:

* JavaScript `number`s that hold continuous quantities (positions,
  velocities, timers) are embedded as `ℚ`; counters (`score`, `lives`,
  `level`, `wave`, hit points, damage, point values) as `Int` and the enemy
  type discriminant as `Nat`.  JS `%` on the kill counter is the truncated
  remainder, `Int.tmod`.
* `Math.sin`, `Math.cos`, `Math.sqrt` and `Math.PI` are transcendental; they
  are abstracted as an arbitrary `MathOps` record of rational functions, so
  every theorem quantifying over `MathOps` holds for any interpretation of
  them.  No claim in scope depends on their analytic values.
* `Math.random()` draws are supplied by an adversarial `Oracle`: the spawn
  path takes one draw per `Math.random()` call of `spawnEnemy`, explosions
  take a per-particle draw stream, star recycling a per-star draw.  Distinct
  explosion calls within one step read the same stream; no claim in scope
  concerns the distribution or independence of draws.
* The `world.keys` record and the touch state are input plumbing; the
  per-frame intent they induce (lines 229-256 of the source) is embedded as
  an `Input` snapshot (`left` is `ArrowLeft || a || A`, `fire` is
  `keys[" "] || touch.firing`, `joystick` is the current drag vector
  `(curX - startX, curY - startY)` of the active touch joystick, if any).
* The UI callbacks (`onScoreChange`, `onLivesChange`, `onLevelChange`,
  `onGameOver`) and the audio callbacks (`sfxShoot`, `sfxHit`, `sfxExplode`,
  `sfxDamage`, `sfxLevelUp`, `sfxGameOver`, `sfxEnemyShoot`) are modelled as
  an event list emitted by `update`, in emission order.
* The source's reverse index loops with in-place `splice` (enemy pass,
  bullet pass) are embedded as structural recursion over the reversed
  collection, rebuilding the array; the early `return` on game over is a
  halt flag that aborts the remaining passes, exactly as in the source.
-/

namespace Game

/-- 2D vector (source `Vec2`). -/
structure Vec2 where
  x : ℚ
  y : ℚ
deriving DecidableEq

/-- The colour constants used by the engine (`CYAN`, `MAGENTA`, `GOLD`,
`RED`, `GREEN`); they are opaque tags as far as the simulation goes. -/
inductive Color where
  | cyan
  | magenta
  | gold
  | red
  | green
deriving DecidableEq

/-- Bullet owner tag (source `owner: "player" | "enemy"`). -/
inductive Owner where
  | player
  | enemy
deriving DecidableEq

/-- The floating-text literals the engine creates: `"HIT!"`, `` `+${pts}` ``
and `` `LEVEL ${n}!` ``. -/
inductive FText where
  | hitText
  | plus (pts : Int)
  | levelBanner (lvl : Int)
deriving DecidableEq

/-- Source `Player`. -/
structure Player where
  pos : Vec2
  width : ℚ
  height : ℚ
  speed : ℚ
  hp : Int
  maxHp : Int
  invincible : ℚ
  thrusterPhase : ℚ
deriving DecidableEq

/-- Source `Bullet`. -/
structure Bullet where
  pos : Vec2
  vel : Vec2
  radius : ℚ
  owner : Owner
  damage : Int
  life : ℚ
deriving DecidableEq

/-- Source `Enemy`. -/
structure Enemy where
  pos : Vec2
  vel : Vec2
  width : ℚ
  height : ℚ
  hp : Int
  maxHp : Int
  type : Nat
  shootTimer : ℚ
  shootInterval : ℚ
  sinOffset : ℚ
  sinAmp : ℚ
  sinSpeed : ℚ
  points : Int
deriving DecidableEq

/-- Source `Particle`. -/
structure Particle where
  pos : Vec2
  vel : Vec2
  radius : ℚ
  color : Color
  life : ℚ
  maxLife : ℚ
  alpha : ℚ
deriving DecidableEq

/-- Source `Star`. -/
structure Star where
  pos : Vec2
  speed : ℚ
  size : ℚ
  alpha : ℚ
deriving DecidableEq

/-- Source `FloatingText`. -/
structure FloatingText where
  pos : Vec2
  text : FText
  color : Color
  life : ℚ
  maxLife : ℚ
deriving DecidableEq

/-- The World State aggregate (the source's `world.current`); `player` is
`none` before a run is initialised.  `waveTimer` and `bossActive` exist in
the source record but are never read by `update`. -/
structure World where
  player : Option Player
  bullets : List Bullet
  enemies : List Enemy
  particles : List Particle
  stars : List Star
  floats : List FloatingText
  score : Int
  lives : Int
  level : Int
  wave : Int
  waveTimer : ℚ
  shootCooldown : ℚ
  enemySpawnTimer : ℚ
  enemySpawnInterval : ℚ
  bossActive : Bool
  shake : ℚ
  time : ℚ
deriving DecidableEq

/-- The active-run view of the World State used inside one `update` call,
with the player present. -/
structure Act where
  player : Player
  bullets : List Bullet
  enemies : List Enemy
  particles : List Particle
  stars : List Star
  floats : List FloatingText
  score : Int
  lives : Int
  level : Int
  wave : Int
  shootCooldown : ℚ
  enemySpawnTimer : ℚ
  enemySpawnInterval : ℚ
  shake : ℚ
  time : ℚ
deriving DecidableEq

/-- The notifications `update` emits to the UI sink and the audio
collaborator, in emission order. -/
inductive Ev where
  | shoot
  | hit
  | explodeSfx (big : Bool)
  | damage
  | levelUp
  | gameOverSfx
  | enemyShoot
  | scoreChanged (score : Int)
  | livesChanged (lives : Int)
  | levelChanged (level : Int)
  | gameOver (finalScore : Int)
deriving DecidableEq

/-- Event lists consisting only of enemy-fire notifications (all an enemy
pass can emit besides player-hit resolution). -/
def onlyShots (l : List Ev) : Prop := ∀ ev ∈ l, ev = Ev.enemyShoot

/-- Event lists free of every life-related notification (damage audio,
game-over audio, lives-changed, game-over). -/
def cleanEvs (l : List Ev) : Prop :=
  ∀ ev ∈ l, ev ≠ Ev.damage ∧ ev ≠ Ev.gameOverSfx ∧
    (∀ n, ev ≠ Ev.livesChanged n) ∧ (∀ n, ev ≠ Ev.gameOver n)

/-- Two active views agreeing on the player and every progression counter
(what one enemy-pass iteration preserves unless it damages the player). -/
def sameCoreE (a a1 : Act) : Prop :=
  a1.player = a.player ∧ a1.lives = a.lives ∧ a1.score = a.score ∧
  a1.level = a.level ∧ a1.wave = a.wave

/-- The effect of a player-hit resolution on the core state: 2.5s
invincibility, one life lost, progression counters untouched. -/
def dmgCore (a a1 : Act) : Prop :=
  a1.player = { a.player with invincible := 2.5 } ∧ a1.lives = a.lives - 1 ∧
  a1.score = a.score ∧ a1.level = a.level ∧ a1.wave = a.wave

/-- Per-frame input intent snapshot (keyboard key groups merged with the
touch joystick / fire button, as read by `update`). -/
structure Input where
  left : Bool
  right : Bool
  up : Bool
  down : Bool
  fire : Bool
  joystick : Option Vec2

/-- Abstract interpretation of the transcendental `Math` functions used by
the engine. -/
structure MathOps where
  sin : ℚ → ℚ
  cos : ℚ → ℚ
  sqrt : ℚ → ℚ
  pi : ℚ

/-- The `Math.random()` draws consumed by one `spawnEnemy` call, in call
order: type rolls, the two config `sinAmp` rolls, spawn X, initial shoot
timer phase, shoot-interval jitter, sine phase offset. -/
structure SpawnRand where
  rType1 : ℚ
  rType2 : ℚ
  rAmp0 : ℚ
  rAmp1 : ℚ
  rX : ℚ
  rTimer : ℚ
  rJitter : ℚ
  rOff : ℚ

/-- The `Math.random()` draws consumed per particle by `explode`: angle
jitter, speed, radius, life. -/
structure PRand where
  a : ℚ
  s : ℚ
  r : ℚ
  l : ℚ

/-- Random draw supply for one `update` step. -/
structure Oracle where
  spawn : SpawnRand
  part : Nat → PRand
  starX : Nat → ℚ

/-- Source `rectOverlap` (strict axis-aligned rectangle overlap). -/
def rectOverlap (ax ay aw ah bx b_y bw bh : ℚ) : Bool :=
  decide (ax < bx + bw) && decide (ax + aw > bx) &&
  decide (ay < b_y + bh) && decide (ay + ah > b_y)

/-- Source `circRect` (circle vs rectangle, nearest-point clamp, strict
squared-distance compare). -/
def circRect (cx cy r rx ry rw rh : ℚ) : Bool :=
  decide ((cx - max rx (min cx (rx + rw))) * (cx - max rx (min cx (rx + rw))) +
          (cy - max ry (min cy (ry + rh))) * (cy - max ry (min cy (ry + rh))) < r * r)

/-- Source `explode(x, y, color, count)`: the particle burst it pushes. -/
def explodeParts (M : MathOps) (O : Oracle) (x y : ℚ) (color : Color) (count : Nat) :
    List Particle :=
  (List.range count).map fun i =>
    let q := O.part i
    let angle := (M.pi * 2 * i) / count + q.a * 0.5
    let speed := 60 + q.s * 140
    { pos := ⟨x, y⟩,
      vel := ⟨M.cos angle * speed, M.sin angle * speed⟩,
      radius := 1.5 + q.r * 4,
      color := color,
      life := 0.4 + q.l * 0.6, maxLife := 1, alpha := 1 }

/-- One row of the `configs` stat table of `spawnEnemy`. -/
structure ECfg where
  width : ℚ
  height : ℚ
  hp : Int
  speed : ℚ
  sinAmp : ℚ
  sinSpeed : ℚ
  shootInterval : ℚ
  points : Int

/-- The `configs` stat table of `spawnEnemy` (index 0 grunt, 1 dart,
2 tank), as a function of the current level. -/
def enemyConfig (O : Oracle) (lvl : Int) : Nat → ECfg
  | 1 => { width := 30, height := 32, hp := 1, speed := 110 + (lvl : ℚ) * 10,
           sinAmp := 80 + O.spawn.rAmp1 * 50, sinSpeed := 3.5,
           shootInterval := 99, points := 150 }
  | 2 => { width := 50, height := 50, hp := 3 + ⌊(lvl : ℚ) * 0.8⌋, speed := 40 + (lvl : ℚ) * 5,
           sinAmp := 15, sinSpeed := 0.8, shootInterval := 2.0, points := 250 }
  | _ => { width := 36, height := 36, hp := 1 + ⌊(lvl : ℚ) * 0.5⌋, speed := 60 + (lvl : ℚ) * 8,
           sinAmp := 30 + O.spawn.rAmp0 * 40, sinSpeed := 1.5,
           shootInterval := 3.5, points := 100 }

/-- Source `spawnEnemy`: the enemy record it pushes (type selection is
weighted by level, the shoot interval is jittered `×(0.8 + rand*0.4)` and
the initial shoot timer is a random phase in `[0, cfg.shootInterval)`). -/
def spawnedEnemy (M : MathOps) (O : Oracle) (lvl : Int) (Wd : ℚ) : Enemy :=
  let type : Nat :=
    if O.spawn.rType1 < 0.15 + (lvl : ℚ) * 0.05 then 2
    else if O.spawn.rType2 < 0.3 then 1 else 0
  let cfg := enemyConfig O lvl type
  { pos := ⟨cfg.width / 2 + O.spawn.rX * (Wd - cfg.width), -cfg.height⟩,
    vel := ⟨0, cfg.speed⟩,
    width := cfg.width, height := cfg.height,
    hp := cfg.hp, maxHp := cfg.hp,
    type := type,
    shootTimer := O.spawn.rTimer * cfg.shootInterval,
    shootInterval := cfg.shootInterval * (0.8 + O.spawn.rJitter * 0.4),
    sinOffset := O.spawn.rOff * (M.pi * 2),
    sinAmp := cfg.sinAmp, sinSpeed := cfg.sinSpeed,
    points := cfg.points }

/-- The enemy-spawning tick of `update` (source lines 268-275): accumulate
the spawn timer; on reaching the interval, reset it, push one enemy and
shrink the interval to `max(0.5, interval - level*0.05)`. -/
def spawnPhase (M : MathOps) (O : Oracle) (dt Wd : ℚ) (a : Act) : Act :=
  let t := a.enemySpawnTimer + dt
  if t ≥ a.enemySpawnInterval then
    { a with enemySpawnTimer := 0,
             enemies := a.enemies ++ [spawnedEnemy M O a.level Wd],
             enemySpawnInterval := max 0.5 (a.enemySpawnInterval - (a.level : ℚ) * 0.05) }
  else
    { a with enemySpawnTimer := t }

/-- The touch-joystick intent vector (source lines 230-241): zero unless the
drag distance exceeds 5, else the drag divided by `max(dist, 50)`. -/
def joyvec (M : MathOps) (j : Option Vec2) : ℚ × ℚ :=
  match j with
  | none => (0, 0)
  | some v =>
    let dist := M.sqrt (v.x * v.x + v.y * v.y)
    if dist > 5 then (v.x / max dist 50, v.y / max dist 50) else (0, 0)

/-- The player-movement phase of `update` (source lines 226-252): apply the
merged digital/analog intent on each axis, clamped to the viewport minus the
player's own box, advance the thruster phase and decrement invincibility
floored at zero. -/
def movementPhase (M : MathOps) (dt Wd Ht : ℚ) (inp : Input) (p : Player) : Player :=
  let spd := p.speed * dt
  let mv := joyvec M inp.joystick
  let moveX := mv.1
  let moveY := mv.2
  let x1 := if (inp.left ∨ moveX < -0.1) ∧ p.pos.x > 0
            then max 0 (p.pos.x - spd * (if moveX < -0.1 then |moveX| else 1))
            else p.pos.x
  let x2 := if (inp.right ∨ moveX > 0.1) ∧ x1 + p.width < Wd
            then min (Wd - p.width) (x1 + spd * (if moveX > 0.1 then moveX else 1))
            else x1
  let y1 := if (inp.up ∨ moveY < -0.1) ∧ p.pos.y > 0
            then max 0 (p.pos.y - spd * (if moveY < -0.1 then |moveY| else 1))
            else p.pos.y
  let y2 := if (inp.down ∨ moveY > 0.1) ∧ y1 + p.height < Ht
            then min (Ht - p.height) (y1 + spd * (if moveY > 0.1 then moveY else 1))
            else y1
  { p with pos := ⟨x2, y2⟩,
           thrusterPhase := p.thrusterPhase + dt * 10,
           invincible := max 0 (p.invincible - dt) }

/-- The player-fire phase of `update` (source lines 255-266): decrement the
cooldown floored at zero; when fire intent is on and the cooldown has
elapsed, reset it to 0.18, push one nose bullet plus (level ≥ 3) two angled
side bullets, and emit the fire notification. -/
def shootPhase (dt : ℚ) (inp : Input) (a : Act) : Act × List Ev :=
  let cd := max 0 (a.shootCooldown - dt)
  if inp.fire ∧ cd ≤ 0 then
    let p := a.player
    let cx := p.pos.x + p.width / 2
    let cy := p.pos.y
    let bs :=
      [{ pos := ⟨cx - 2, cy⟩, vel := ⟨0, -700⟩, radius := 4,
         owner := Owner.player, damage := 1, life := 2 }] ++
      (if a.level ≥ 3 then
        [{ pos := ⟨cx - 14, cy + 10⟩, vel := ⟨-40, -700⟩, radius := 3,
           owner := Owner.player, damage := 1, life := 2 },
         { pos := ⟨cx + 10, cy + 10⟩, vel := ⟨40, -700⟩, radius := 3,
           owner := Owner.player, damage := 1, life := 2 }]
       else [])
    ({ a with shootCooldown := 0.18, bullets := a.bullets ++ bs }, [Ev.shoot])
  else
    ({ a with shootCooldown := cd }, [])

/-- The shared player-hit resolution (source lines 305-317 and 364-372):
grant 2.5s invincibility, decrement lives, set shake, push the explosion
burst and the `"HIT!"` floating text, emit damage and lives-changed; when
lives reach zero also emit the game-over audio and the game-over
notification carrying the current score, and signal the early return. -/
def damagePlayer (a : Act) (newShake : ℚ) (parts : List Particle) : Act × List Ev × Bool :=
  let p := a.player
  let a1 := { a with
    player := { p with invincible := 2.5 },
    lives := a.lives - 1,
    shake := newShake,
    particles := a.particles ++ parts,
    floats := a.floats ++ [{ pos := ⟨p.pos.x + p.width / 2, p.pos.y⟩,
                             text := FText.hitText, color := Color.red,
                             life := 1, maxLife := 1 }] }
  let evs := [Ev.damage, Ev.livesChanged a1.lives]
  if a1.lives ≤ 0 then (a1, evs ++ [Ev.gameOverSfx, Ev.gameOver a1.score], true)
  else (a1, evs, false)

/-- The per-enemy shooting step (source lines 284-297): enemies whose shoot
interval is below the never-shoots sentinel 90 accumulate their shoot timer
and, on threshold, fire one bullet aimed at the player's centre at a
level-scaled speed, emitting the enemy-fire notification.  The enemy passed
in already carries its updated position. -/
def enemyShootStep (M : MathOps) (dt : ℚ) (lvl : Int) (p : Player) (e : Enemy) :
    Enemy × List Bullet × List Ev :=
  if e.shootInterval < 90 then
    let t1 := e.shootTimer + dt
    if t1 ≥ e.shootInterval then
      let cx := e.pos.x + e.width / 2
      let cy := e.pos.y + e.height
      let dx := (p.pos.x + p.width / 2) - cx
      let dy := (p.pos.y + p.height / 2) - cy
      let len0 := M.sqrt (dx * dx + dy * dy)
      let len := if len0 = 0 then 1 else len0
      let spd2 := 200 + (lvl : ℚ) * 15
      ({ e with shootTimer := 0 },
       [{ pos := ⟨cx, cy⟩, vel := ⟨dx / len * spd2, dy / len * spd2⟩, radius := 5,
          owner := Owner.enemy, damage := 1, life := 3 }],
       [Ev.enemyShoot])
    else ({ e with shootTimer := t1 }, [], [])
  else (e, [], [])

/-- Result of processing one enemy in the enemy pass: keep it (with its
updated record), drop it (left the viewport, or collided with the player
without ending the run), or halt the whole step (collision took the last
life). -/
inductive EOut where
  | keep (a : Act) (e : Enemy) (evs : List Ev)
  | gone (a : Act) (evs : List Ev)
  | halt (a : Act) (evs : List Ev)

/-- The position integration of one enemy (source lines 280-282): straight
descent, sinusoidal horizontal sway as a function of the elapsed time (the
step's `w.time` is already advanced) and per-enemy phase, X clamped to the
viewport. -/
def enemyMoved (M : MathOps) (dt Wd time : ℚ) (e : Enemy) : Enemy :=
  { e with pos := ⟨max 0 (min (Wd - e.width)
                    (e.pos.x + M.sin (time * e.sinSpeed + e.sinOffset) * e.sinAmp * dt)),
                   e.pos.y + e.vel.y * dt⟩ }

/-- One iteration of the enemy pass (source lines 278-319): integrate the
descent plus the sinusoidal sway, clamp X to the viewport, run the shooting
step, drop the enemy below `H + 60`, else resolve the body collision with a
non-invincible player. -/
def processEnemy (M : MathOps) (O : Oracle) (dt Wd Ht : ℚ) (a : Act) (e : Enemy) : EOut :=
  let p := a.player
  let e1 := enemyMoved M dt Wd a.time e
  let sh := enemyShootStep M dt a.level p e1
  let a1 := { a with bullets := a.bullets ++ sh.2.1 }
  if e1.pos.y > Ht + 60 then EOut.gone a1 sh.2.2
  else if decide (p.invincible ≤ 0) &&
          rectOverlap p.pos.x p.pos.y p.width p.height e1.pos.x e1.pos.y e1.width e1.height then
    let dp := damagePlayer a1 1
                (explodeParts M O (e1.pos.x + e1.width / 2) (e1.pos.y + e1.height / 2)
                  Color.red 20)
    if dp.2.2 then EOut.halt dp.1 (sh.2.2 ++ dp.2.1)
    else EOut.gone dp.1 (sh.2.2 ++ dp.2.1)
  else EOut.keep a1 sh.1 sh.2.2

/-- The enemy pass: the source iterates `i` from `enemies.length - 1` down
to `0` with in-place `splice`, so the list is processed in reverse index
order; this recursion takes the reversed list, threads the world state
through it and rebuilds the surviving array in original order, stopping at
the game-over early return (the `Bool` component). -/
def goE (M : MathOps) (O : Oracle) (dt Wd Ht : ℚ) (a : Act) (evs : List Ev) :
    List Enemy → Act × List Enemy × List Ev × Bool
  | [] => (a, [], evs, false)
  | e :: rest =>
    match processEnemy M O dt Wd Ht a e with
    | EOut.halt a1 evs1 => (a1, rest.reverse, evs ++ evs1, true)
    | EOut.gone a1 evs1 => goE M O dt Wd Ht a1 (evs ++ evs1) rest
    | EOut.keep a1 e1 evs1 =>
      match goE M O dt Wd Ht a1 (evs ++ evs1) rest with
      | (a2, sur, evs2, h2) => (a2, sur ++ [e1], evs2, h2)

/-- The circle-vs-rectangle test of a bullet against an enemy's box
(source line 335). -/
def enemyHit (b : Bullet) (e : Enemy) : Bool :=
  circRect b.pos.x b.pos.y b.radius e.pos.x e.pos.y e.width e.height

/-- The inner scan of the bullet pass over a list of enemies, splitting it
at the first one the bullet's circle intersects: `some (pre, e, post)` means
the list is `pre ++ e :: post` with no intersection in `pre`. -/
def hitScan (b : Bullet) : List Enemy → Option (List Enemy × Enemy × List Enemy)
  | [] => none
  | e :: rest =>
    if enemyHit b e then some ([], e, rest)
    else
      match hitScan b rest with
      | none => none
      | some (pre, e1, post) => some (e :: pre, e1, post)

/-- The inner enemy loop of the bullet pass (source lines 333-359) iterates
`j` from `enemies.length - 1` down to `0` and `break`s at the first hit: a
scan of the reversed enemy array. -/
def bulletEnemyScan (b : Bullet) (es : List Enemy) :
    Option (List Enemy × Enemy × List Enemy) :=
  hitScan b es.reverse

/-- The bullet-expiry test (source line 328): lifetime exhausted or outside
the viewport plus a 20px margin. -/
def bulletGone (Wd Ht : ℚ) (b : Bullet) : Bool :=
  decide (b.life ≤ 0) || decide (b.pos.y < -20) || decide (b.pos.y > Ht + 20) ||
  decide (b.pos.x < -20) || decide (b.pos.x > Wd + 20)

/-- A bullet after one step of integration (source lines 324-326). -/
def movedBullet (dt : ℚ) (b : Bullet) : Bullet :=
  { b with pos := ⟨b.pos.x + b.vel.x * dt, b.pos.y + b.vel.y * dt⟩,
           life := b.life - dt }

/-- Kill resolution (source lines 340-356, after the enemy was spliced out
by the caller): award `points × level`, emit score-changed and the kill
audio (tank passed as big), push the large burst and the `+pts` floating
text, increment the kill counter; every 12th kill increments the level,
emits level-changed and the level-up audio and pushes the level banner. -/
def resolveKill (M : MathOps) (O : Oracle) (Wd Ht : ℚ) (e : Enemy) (a : Act) :
    Act × List Ev :=
  let pts := e.points * a.level
  let killColor := if e.type = 2 then Color.magenta
                   else if e.type = 1 then Color.gold else Color.cyan
  let wave1 := a.wave + 1
  let a1 := { a with
    score := a.score + pts,
    particles := a.particles ++
      explodeParts M O (e.pos.x + e.width / 2) (e.pos.y + e.height / 2) killColor 22,
    floats := a.floats ++ [{ pos := ⟨e.pos.x + e.width / 2, e.pos.y⟩,
                             text := FText.plus pts, color := Color.gold,
                             life := 1.2, maxLife := 1.2 }],
    wave := wave1 }
  let evs := [Ev.scoreChanged a1.score, Ev.explodeSfx (decide (e.type = 2))]
  if wave1.tmod 12 = 0 then
    let a2 := { a1 with
      level := a1.level + 1,
      floats := a1.floats ++ [{ pos := ⟨Wd / 2, Ht / 2⟩,
                                text := FText.levelBanner (a1.level + 1),
                                color := Color.green, life := 2, maxLife := 2 }] }
    (a2, evs ++ [Ev.levelChanged a2.level, Ev.levelUp])
  else (a1, evs)

/-- Result of processing one bullet in the bullet pass. -/
inductive BOut where
  | keep (a : Act) (b : Bullet) (evs : List Ev)
  | gone (a : Act) (evs : List Ev)
  | halt (a : Act) (evs : List Ev)

/-- The `Act` carried by a `BOut`. -/
def boutAct : BOut → Act
  | BOut.keep a _ _ => a
  | BOut.gone a _ => a
  | BOut.halt a _ => a

/-- One iteration of the bullet pass (source lines 322-374): integrate and
age the bullet, drop it when expired; a surviving player bullet scans the
enemy array (in reverse index order, stopping at the first hit) and resolves
damage or a kill against that single enemy; a surviving enemy bullet tests
the non-invincible player and resolves a player hit, possibly halting the
step on game over. -/
def processBullet (M : MathOps) (O : Oracle) (dt Wd Ht : ℚ) (a : Act) (b : Bullet) : BOut :=
  let b1 := movedBullet dt b
  if bulletGone Wd Ht b1 then BOut.gone a []
  else
    match b1.owner with
    | Owner.player =>
      match bulletEnemyScan b1 a.enemies with
      | none => BOut.keep a b1 []
      | some (pre, e, post) =>
        let hp1 := e.hp - b1.damage
        let a1 := { a with particles := a.particles ++
                     explodeParts M O b1.pos.x b1.pos.y Color.cyan 6 }
        if hp1 ≤ 0 then
          let a2 := { a1 with enemies := post.reverse ++ pre.reverse }
          let rk := resolveKill M O Wd Ht e a2
          BOut.gone rk.1 ([Ev.hit] ++ rk.2)
        else
          BOut.gone { a1 with enemies := post.reverse ++ [{ e with hp := hp1 }] ++ pre.reverse }
            [Ev.hit]
    | Owner.enemy =>
      let p := a.player
      if decide (p.invincible ≤ 0) &&
         circRect b1.pos.x b1.pos.y b1.radius p.pos.x p.pos.y p.width p.height then
        let dp := damagePlayer a 0.7
                    (explodeParts M O (p.pos.x + p.width / 2) (p.pos.y + p.height / 2)
                      Color.red 14)
        if dp.2.2 then BOut.halt dp.1 dp.2.1 else BOut.gone dp.1 dp.2.1
      else BOut.keep a b1 []

/-- The bullet pass: reverse index iteration with in-place removal, like the
enemy pass, over the bullet array as it stands after the earlier phases
(which append, never prepend). -/
def goB (M : MathOps) (O : Oracle) (dt Wd Ht : ℚ) (a : Act) (evs : List Ev) :
    List Bullet → Act × List Bullet × List Ev × Bool
  | [] => (a, [], evs, false)
  | b :: rest =>
    match processBullet M O dt Wd Ht a b with
    | BOut.halt a1 evs1 => (a1, rest.reverse, evs ++ evs1, true)
    | BOut.gone a1 evs1 => goB M O dt Wd Ht a1 (evs ++ evs1) rest
    | BOut.keep a1 b1 evs1 =>
      match goB M O dt Wd Ht a1 (evs ++ evs1) rest with
      | (a2, sur, evs2, h2) => (a2, sur ++ [b1], evs2, h2)

/-- The particle pass (source lines 378-388): age, integrate, drag the
velocity, recompute alpha, shrink the radius; drop on lifetime exhaustion
(element-independent, so a rebuild equals the source's reverse splice
loop). -/
def particlePhase (dt : ℚ) (ps : List Particle) : List Particle :=
  ps.filterMap fun pt =>
    let life1 := pt.life - dt
    if life1 ≤ 0 then none
    else some { pt with
      life := life1,
      pos := ⟨pt.pos.x + pt.vel.x * dt, pt.pos.y + pt.vel.y * dt⟩,
      vel := ⟨pt.vel.x * (1 - 3 * dt), pt.vel.y * (1 - 3 * dt)⟩,
      alpha := life1 / pt.maxLife,
      radius := pt.radius * (1 - 0.8 * dt) }

/-- The floating-text pass (source lines 391-396): age, rise 40px/s, drop on
expiry. -/
def floatPhase (dt : ℚ) (fs : List FloatingText) : List FloatingText :=
  fs.filterMap fun ft =>
    let life1 := ft.life - dt
    if life1 ≤ 0 then none
    else some { ft with life := life1, pos := ⟨ft.pos.x, ft.pos.y - 40 * dt⟩ }

/-- The starfield pass (source lines 399-402): advance each star by its
speed times the level-scaled multiplier; recycle below the bottom to a
random X at Y = 0. -/
def starPhase (O : Oracle) (dt Wd Ht : ℚ) (lvl : Int) (ss : List Star) : List Star :=
  (List.range ss.length).zip ss |>.map fun iz =>
    let st := iz.2
    let y1 := st.pos.y + st.speed * dt * (30 + (lvl : ℚ) * 2)
    if y1 > Ht then { st with pos := ⟨O.starX iz.1 * Wd, 0⟩ }
    else { st with pos := ⟨st.pos.x, y1⟩ }

/-- Phases 1-4 of `update` (time/shake bookkeeping, player movement, player
fire, spawn tick), before the enemy pass. -/
def preLoops (M : MathOps) (O : Oracle) (dt : ℚ) (inp : Input) (Wd Ht : ℚ)
    (p : Player) (w : World) : Act × List Ev :=
  let a1 : Act := {
    player := movementPhase M dt Wd Ht inp p,
    bullets := w.bullets, enemies := w.enemies, particles := w.particles,
    stars := w.stars, floats := w.floats,
    score := w.score, lives := w.lives, level := w.level, wave := w.wave,
    shootCooldown := w.shootCooldown,
    enemySpawnTimer := w.enemySpawnTimer, enemySpawnInterval := w.enemySpawnInterval,
    shake := max 0 (w.shake - dt * 8), time := w.time + dt }
  let s := shootPhase dt inp a1
  (spawnPhase M O dt Wd s.1, s.2)

/-- Write an active-run view back into the World State. -/
def toWorld (w : World) (a : Act) : World :=
  { w with player := some a.player, bullets := a.bullets, enemies := a.enemies,
           particles := a.particles, stars := a.stars, floats := a.floats,
           score := a.score, lives := a.lives, level := a.level, wave := a.wave,
           shootCooldown := a.shootCooldown, enemySpawnTimer := a.enemySpawnTimer,
           enemySpawnInterval := a.enemySpawnInterval, shake := a.shake,
           time := a.time }

/-- The Simulation Engine step (source `update`, lines 214-403): a no-op
when no player is present; otherwise the fixed phase order with the two
game-over early returns of the enemy and bullet passes. -/
def update (M : MathOps) (O : Oracle) (dt : ℚ) (inp : Input) (Wd Ht : ℚ)
    (w : World) : World × List Ev :=
  match w.player with
  | none => (w, [])
  | some p =>
    let pre := preLoops M O dt inp Wd Ht p w
    match goE M O dt Wd Ht pre.1 pre.2 pre.1.enemies.reverse with
    | (a4, sur, evs4, true) => (toWorld w { a4 with enemies := sur }, evs4)
    | (a4, sur, evs4, false) =>
      let a4e := { a4 with enemies := sur }
      match goB M O dt Wd Ht a4e evs4 a4e.bullets.reverse with
      | (a5, bsur, evs5, true) => (toWorld w { a5 with bullets := bsur }, evs5)
      | (a5, bsur, evs5, false) =>
        let a5b := { a5 with bullets := bsur }
        (toWorld w { a5b with
            particles := particlePhase dt a5b.particles,
            floats := floatPhase dt a5b.floats,
            stars := starPhase O dt Wd Ht a5b.level a5b.stars }, evs5)

/-- Rendering model.  The source `render` (lines 406-658) only issues canvas
drawing commands and reads the world; it never writes a World State field,
and its single early exit is the missing-player guard at line 410.  We model
it by its effect on the world (the identity) paired with whether the drawing
pass ran. -/
def render (w : World) : World × Bool :=
  match w.player with
  | none => (w, false)
  | some _ => (w, true)

/-! ## Concrete instances used by witnesses and counterexamples -/

/-- A concrete interpretation of the abstract `Math` operations (the claims
proved below hold for every interpretation; witnesses fix one). -/
def math0 : MathOps :=
  { sin := fun _ => 0, cos := fun _ => 0, sqrt := fun q => q, pi := 0 }

/-- A concrete particle draw. -/
def prand0 : PRand := { a := 0, s := 0, r := 0, l := 0 }

/-- A concrete random-draw supply. -/
def oracle0 : Oracle :=
  { spawn := { rType1 := 1, rType2 := 1, rAmp0 := 0, rAmp1 := 0, rX := 0,
               rTimer := 0, rJitter := 0, rOff := 0 },
    part := fun _ => prand0, starX := fun _ => 0 }

/-- The neutral input snapshot: no keys, no touch. -/
def input0 : Input :=
  { left := false, right := false, up := false, down := false, fire := false,
    joystick := none }

/-- An uninitialised World State (no player). -/
def baseWorld : World :=
  { player := none, bullets := [], enemies := [], particles := [], stars := [],
    floats := [], score := 0, lives := 3, level := 1, wave := 0, waveTimer := 0,
    shootCooldown := 0, enemySpawnTimer := 0, enemySpawnInterval := 1.8,
    bossActive := false, shake := 0, time := 0 }

/-- A stationary grunt-shaped enemy used by concrete scenarios. -/
def enemyAt (x y w h : ℚ) (hp : Int) : Enemy :=
  { pos := ⟨x, y⟩, vel := ⟨0, 0⟩, width := w, height := h, hp := hp, maxHp := hp,
    type := 0, shootTimer := 0, shootInterval := 99, sinOffset := 0, sinAmp := 0,
    sinSpeed := 0, points := 100 }

/-- Scenario for C2: a player bullet whose circle lies inside the boxes of
both enemies of the list; the player is far away and invincible so only the
bullet pass acts. -/
def player2 : Player :=
  { pos := ⟨700, 500⟩, width := 40, height := 50, speed := 320, hp := 3, maxHp := 3,
    invincible := 5, thrusterPhase := 0 }

/-- First (index 0) enemy of the C2 scenario. -/
def enemy20 : Enemy := enemyAt 90 90 40 40 5

/-- Second (index 1) enemy of the C2 scenario. -/
def enemy21 : Enemy := enemyAt 95 95 40 40 5

/-- The C2 scenario bullet, overlapping both enemies. -/
def bullet2 : Bullet :=
  { pos := ⟨100, 100⟩, vel := ⟨0, 0⟩, radius := 4, owner := Owner.player,
    damage := 1, life := 2 }

/-- The C2 scenario world. -/
def world2 : World :=
  { baseWorld with player := some player2, bullets := [bullet2],
                   enemies := [enemy20, enemy21] }

/-- Scenario for C3: the step begins with a strictly positive invincibility
counter (0.01) smaller than the step's `dt` (0.05), and an enemy overlaps
the player. -/
def player3 : Player :=
  { pos := ⟨100, 100⟩, width := 40, height := 50, speed := 320, hp := 3, maxHp := 3,
    invincible := 0.01, thrusterPhase := 0 }

/-- The C3 scenario world. -/
def world3 : World :=
  { baseWorld with player := some player3, enemies := [enemyAt 100 100 36 36 1] }

/-- Draws for the C7 scenario: they select the dart type (type roll 0.5 is
above the tank weight at level 1, dart roll 0 is below 0.3), the minimal
interval jitter (0.8) and an initial shoot-timer phase of 80/99 of the base
interval. -/
def oracle7 : Oracle :=
  { spawn := { rType1 := 0.5, rType2 := 0, rAmp0 := 0, rAmp1 := 0, rX := 0,
               rTimer := 80 / 99, rJitter := 0, rOff := 0 },
    part := fun _ => prand0, starX := fun _ => 0 }

/-- The dart enemy produced by `spawnEnemy` under the C7 draws at level 1 on
an 800-wide viewport. -/
def enemy7 : Enemy := spawnedEnemy math0 oracle7 1 800

/-- The C7 scenario player (near the bottom, not overlapping the dart). -/
def player7 : Player :=
  { pos := ⟨380, 480⟩, width := 40, height := 50, speed := 320, hp := 3, maxHp := 3,
    invincible := 0, thrusterPhase := 0 }

/-- The C7 scenario world: exactly one enemy, the freshly spawned dart. -/
def world7 : World :=
  { baseWorld with player := some player7, enemies := [enemy7] }

/-- A generic active world with one life margin, used by witnesses. -/
def world1 : World := { baseWorld with player := some player7 }

/-- A concrete active view one kill away from a level-up (kill counter 11),
used by witnesses. -/
def act1 : Act :=
  { player := player7, bullets := [], enemies := [], particles := [], stars := [],
    floats := [], score := 0, lives := 3, level := 1, wave := 11, shootCooldown := 0,
    enemySpawnTimer := 0, enemySpawnInterval := 1.8, shake := 0, time := 0 }

/-- The active view of the C2 scenario. -/
def act2 : Act :=
  { player := player2, bullets := [bullet2], enemies := [enemy20, enemy21],
    particles := [], stars := [], floats := [], score := 0, lives := 3, level := 1,
    wave := 0, shootCooldown := 0, enemySpawnTimer := 0, enemySpawnInterval := 1.8,
    shake := 0, time := 0 }

/-! ## Event-list and single-iteration lemmas -/

theorem onlyShots_nil : onlyShots [] := by
  intro ev h; cases h

theorem onlyShots_append {l1 l2 : List Ev} (h1 : onlyShots l1) (h2 : onlyShots l2) :
    onlyShots (l1 ++ l2) := by
  intro ev h
  rcases List.mem_append.1 h with h | h
  · exact h1 ev h
  · exact h2 ev h

theorem cleanEvs_nil : cleanEvs [] := by
  intro ev h; cases h

theorem cleanEvs_append {l1 l2 : List Ev} (h1 : cleanEvs l1) (h2 : cleanEvs l2) :
    cleanEvs (l1 ++ l2) := by
  intro ev h
  rcases List.mem_append.1 h with h | h
  · exact h1 ev h
  · exact h2 ev h

theorem onlyShots_clean {l : List Ev} (h : onlyShots l) : cleanEvs l := by
  intro ev hm
  rw [h ev hm]
  refine ⟨by simp, by simp, ?_, ?_⟩ <;> intro n <;> simp

theorem sameCoreE_rfl (a : Act) : sameCoreE a a :=
  ⟨rfl, rfl, rfl, rfl, rfl⟩

theorem sameCoreE_trans {a b c : Act} (h1 : sameCoreE a b) (h2 : sameCoreE b c) :
    sameCoreE a c := by
  obtain ⟨p1, l1, s1, v1, w1⟩ := h1
  obtain ⟨p2, l2, s2, v2, w2⟩ := h2
  exact ⟨p2.trans p1, l2.trans l1, s2.trans s1, v2.trans v1, w2.trans w1⟩

theorem damagePlayer_spec (a : Act) (sh : ℚ) (parts : List Particle) :
    (damagePlayer a sh parts).1.player = { a.player with invincible := 2.5 } ∧
    (damagePlayer a sh parts).1.lives = a.lives - 1 ∧
    (damagePlayer a sh parts).1.score = a.score ∧
    (damagePlayer a sh parts).1.level = a.level ∧
    (damagePlayer a sh parts).1.wave = a.wave ∧
    (damagePlayer a sh parts).1.enemies = a.enemies ∧
    (damagePlayer a sh parts).1.bullets = a.bullets ∧
    ((damagePlayer a sh parts).2.2 = true ↔ a.lives - 1 ≤ 0) ∧
    (damagePlayer a sh parts).2.1 =
      [Ev.damage, Ev.livesChanged (a.lives - 1)] ++
      (if a.lives - 1 ≤ 0 then [Ev.gameOverSfx, Ev.gameOver a.score] else []) := by
  unfold damagePlayer
  split_ifs with h <;> simp [h]

theorem enemyShootStep_evs (M : MathOps) (dt : ℚ) (lvl : Int) (p : Player) (e : Enemy) :
    (enemyShootStep M dt lvl p e).2.2 = [] ∨
    (enemyShootStep M dt lvl p e).2.2 = [Ev.enemyShoot] := by
  unfold enemyShootStep
  by_cases h1 : e.shootInterval < 90
  · rw [if_pos h1]
    by_cases h2 : e.shootTimer + dt ≥ e.shootInterval
    · rw [if_pos h2]; simp
    · rw [if_neg h2]; simp
  · rw [if_neg h1]; simp

theorem enemyShootStep_points (M : MathOps) (dt : ℚ) (lvl : Int) (p : Player) (e : Enemy) :
    (enemyShootStep M dt lvl p e).1.points = e.points := by
  unfold enemyShootStep
  by_cases h1 : e.shootInterval < 90
  · rw [if_pos h1]
    by_cases h2 : e.shootTimer + dt ≥ e.shootInterval
    · rw [if_pos h2]
    · rw [if_neg h2]
  · rw [if_neg h1]

theorem onlyShots_of_shootStep (M : MathOps) (dt : ℚ) (lvl : Int) (p : Player) (e : Enemy) :
    onlyShots (enemyShootStep M dt lvl p e).2.2 := by
  rcases enemyShootStep_evs M dt lvl p e with h | h <;> rw [h]
  · exact onlyShots_nil
  · intro ev hm
    simpa using hm

/-- Case analysis of one enemy-pass iteration: either the enemy is kept or
dropped with the core state untouched and only enemy-fire events, or (only
with a non-invincible player) a player hit is resolved, losing exactly one
life, granting 2.5s invincibility, and halting with the game-over pair of
events exactly when the lost life was the last. -/
theorem processEnemy_spec (M : MathOps) (O : Oracle) (dt Wd Ht : ℚ) (a : Act) (e : Enemy) :
    (∃ a1 e1 evs1, processEnemy M O dt Wd Ht a e = EOut.keep a1 e1 evs1 ∧
        sameCoreE a a1 ∧ onlyShots evs1 ∧ e1.points = e.points) ∨
    (∃ a1 evs1, processEnemy M O dt Wd Ht a e = EOut.gone a1 evs1 ∧
        sameCoreE a a1 ∧ onlyShots evs1) ∨
    (a.player.invincible ≤ 0 ∧
      ((∃ a1 pre, processEnemy M O dt Wd Ht a e =
            EOut.gone a1 (pre ++ [Ev.damage, Ev.livesChanged (a.lives - 1)]) ∧
          dmgCore a a1 ∧ ¬(a.lives - 1 ≤ 0) ∧ onlyShots pre) ∨
       (∃ a1 pre, processEnemy M O dt Wd Ht a e =
            EOut.halt a1 (pre ++ [Ev.damage, Ev.livesChanged (a.lives - 1),
                                  Ev.gameOverSfx, Ev.gameOver a.score]) ∧
          dmgCore a a1 ∧ a.lives - 1 ≤ 0 ∧ onlyShots pre))) := by
  unfold processEnemy
  set em := enemyMoved M dt Wd a.time e with hem
  set sh := enemyShootStep M dt a.level a.player em with hsh
  have hshots : onlyShots sh.2.2 := by rw [hsh]; exact onlyShots_of_shootStep M dt a.level a.player em
  have hempts : em.points = e.points := by rw [hem]; rfl
  have hshpts : sh.1.points = e.points := by
    rw [hsh, enemyShootStep_points M dt a.level a.player em]; exact hempts
  set a1 := ({ a with bullets := a.bullets ++ sh.2.1 } : Act) with ha1
  have hA1p : a1.player = a.player := by rw [ha1]
  have hA1l : a1.lives = a.lives := by rw [ha1]
  have hA1s : a1.score = a.score := by rw [ha1]
  have hA1v : a1.level = a.level := by rw [ha1]
  have hA1w : a1.wave = a.wave := by rw [ha1]
  have hcore : sameCoreE a a1 := ⟨hA1p, hA1l, hA1s, hA1v, hA1w⟩
  by_cases h1 : em.pos.y > Ht + 60
  · rw [if_pos h1]
    right; left
    exact ⟨a1, sh.2.2, rfl, hcore, hshots⟩
  · rw [if_neg h1]
    by_cases h2 : (decide (a.player.invincible ≤ 0) &&
        rectOverlap a.player.pos.x a.player.pos.y a.player.width a.player.height
          em.pos.x em.pos.y em.width em.height) = true
    · rw [if_pos h2]
      have hinv : a.player.invincible ≤ 0 := by
        have h2a := h2
        rw [Bool.and_eq_true] at h2a
        exact of_decide_eq_true h2a.1
      set dp := damagePlayer a1 1
          (explodeParts M O (em.pos.x + em.width / 2) (em.pos.y + em.height / 2)
            Color.red 20) with hdp
      have hspec := damagePlayer_spec a1 1
          (explodeParts M O (em.pos.x + em.width / 2) (em.pos.y + em.height / 2) Color.red 20)
      rw [← hdp] at hspec
      obtain ⟨hp1, hp2, hp3, hp4, hp5, _, _, hpH, hpE⟩ := hspec
      have hdcore : dmgCore a dp.1 := by
        refine ⟨?_, ?_, ?_, ?_, ?_⟩
        · rw [hp1, hA1p]
        · rw [hp2, hA1l]
        · rw [hp3, hA1s]
        · rw [hp4, hA1v]
        · rw [hp5, hA1w]
      simp only []
      by_cases hlast : a.lives - 1 ≤ 0
      · have hb : dp.2.2 = true := hpH.2 (by rw [hA1l]; exact hlast)
        rw [if_pos hb]
        right; right
        refine ⟨hinv, Or.inr ⟨dp.1, sh.2.2, ?_, hdcore, hlast, hshots⟩⟩
        have hevs : dp.2.1 = [Ev.damage, Ev.livesChanged (a.lives - 1),
                              Ev.gameOverSfx, Ev.gameOver a.score] := by
          rw [hpE, hA1l, hA1s, if_pos hlast]
          rfl
        rw [hevs, hsh]
      · have hb : ¬(dp.2.2 = true) := fun hc => hlast (by rw [← hA1l]; exact hpH.1 hc)
        rw [if_neg hb]
        right; right
        refine ⟨hinv, Or.inl ⟨dp.1, sh.2.2, ?_, hdcore, hlast, hshots⟩⟩
        have hevs : dp.2.1 = [Ev.damage, Ev.livesChanged (a.lives - 1)] := by
          rw [hpE, hA1l, if_neg hlast]
          rfl
        rw [hevs, hsh]
    · rw [if_neg h2]
      left
      exact ⟨a1, sh.1, sh.2.2, rfl, hcore, hshots, hshpts⟩

/-- The enemy pass never touches score, level or wave, and either leaves
lives and the player untouched emitting only enemy-fire events, or (only
when the pass began with a non-invincible player) resolves exactly one
player hit: lives drop by one, invincibility becomes 2.5, and the pass halts
with the game-over events exactly when that was the last life. -/
theorem goE_spec (M : MathOps) (O : Oracle) (dt Wd Ht : ℚ) (l : List Enemy) :
    ∀ (a : Act) (evs : List Ev) (a1 : Act) (sur : List Enemy) (evs1 : List Ev) (h : Bool),
      goE M O dt Wd Ht a evs l = (a1, sur, evs1, h) →
      a1.score = a.score ∧ a1.level = a.level ∧ a1.wave = a.wave ∧
      ((a1.lives = a.lives ∧ a1.player = a.player ∧ h = false ∧
        ∃ post, evs1 = evs ++ post ∧ onlyShots post) ∨
       (a.player.invincible ≤ 0 ∧ a1.lives = a.lives - 1 ∧
        a1.player = { a.player with invincible := 2.5 } ∧
        ((h = false ∧ ¬(a.lives - 1 ≤ 0) ∧
          ∃ pre suf, evs1 = evs ++ pre ++ [Ev.damage, Ev.livesChanged (a.lives - 1)] ++ suf ∧
            onlyShots pre ∧ onlyShots suf) ∨
         (h = true ∧ a.lives - 1 ≤ 0 ∧
          ∃ pre, evs1 = evs ++ pre ++ [Ev.damage, Ev.livesChanged (a.lives - 1),
                                       Ev.gameOverSfx, Ev.gameOver a.score] ∧
            onlyShots pre)))) := by
  induction l with
  | nil =>
    intro a evs a1 sur evs1 h heq
    simp only [goE, Prod.mk.injEq] at heq
    obtain ⟨ha, _, he, hh⟩ := heq
    subst ha he hh
    exact ⟨rfl, rfl, rfl, Or.inl ⟨rfl, rfl, rfl, [], by simp, onlyShots_nil⟩⟩
  | cons e rest ih =>
    intro a evs a1 sur evs1 h heq
    rcases processEnemy_spec M O dt Wd Ht a e with
      ⟨a2, e1, evs2, hpe, hcore, hsho, _⟩ | ⟨a2, evs2, hpe, hcore, hsho⟩ | ⟨hinv, hdmg⟩
    · -- keep
      rcases hrec : goE M O dt Wd Ht a2 (evs ++ evs2) rest with ⟨a3, sur3, evs3, h3⟩
      rw [goE, hpe] at heq
      simp only [] at heq
      rw [hrec] at heq
      simp only [Prod.mk.injEq] at heq
      obtain ⟨ha, _, he, hh⟩ := heq
      subst ha he hh
      obtain ⟨hcp, hcl, hcs, hcv, hcw⟩ := hcore
      obtain ⟨ihS, ihV, ihW, ihD⟩ := ih a2 (evs ++ evs2) a3 sur3 evs3 h3 hrec
      refine ⟨ihS.trans hcs, ihV.trans hcv, ihW.trans hcw, ?_⟩
      rcases ihD with ⟨hl, hp, hh3, post, hev, hpost⟩ | ⟨hi2, hl, hp, hrest⟩
      · exact Or.inl ⟨hl.trans hcl, hp.trans hcp, hh3,
          evs2 ++ post, by rw [hev, List.append_assoc], onlyShots_append hsho hpost⟩
      · refine Or.inr ⟨hcp ▸ hi2, by rw [hl, hcl], by rw [hp, hcp], ?_⟩
        rcases hrest with ⟨hh3, hnl, pre, suf, hev, hpre, hsuf⟩ | ⟨hh3, hle, pre, hev, hpre⟩
        · refine Or.inl ⟨hh3, by rw [← hcl]; exact hnl, evs2 ++ pre, suf, ?_,
            onlyShots_append hsho hpre, hsuf⟩
          rw [hev, hcl]
          simp [List.append_assoc]
        · refine Or.inr ⟨hh3, by rw [← hcl]; exact hle, evs2 ++ pre, ?_,
            onlyShots_append hsho hpre⟩
          rw [hev, hcl, hcs]
          simp [List.append_assoc]
    · -- gone, no damage
      rw [goE, hpe] at heq
      simp only [] at heq
      obtain ⟨hcp, hcl, hcs, hcv, hcw⟩ := hcore
      obtain ⟨ihS, ihV, ihW, ihD⟩ := ih a2 (evs ++ evs2) a1 sur evs1 h heq
      refine ⟨ihS.trans hcs, ihV.trans hcv, ihW.trans hcw, ?_⟩
      rcases ihD with ⟨hl, hp, hh3, post, hev, hpost⟩ | ⟨hi2, hl, hp, hrest⟩
      · exact Or.inl ⟨hl.trans hcl, hp.trans hcp, hh3,
          evs2 ++ post, by rw [hev, List.append_assoc], onlyShots_append hsho hpost⟩
      · refine Or.inr ⟨hcp ▸ hi2, by rw [hl, hcl], by rw [hp, hcp], ?_⟩
        rcases hrest with ⟨hh3, hnl, pre, suf, hev, hpre, hsuf⟩ | ⟨hh3, hle, pre, hev, hpre⟩
        · refine Or.inl ⟨hh3, by rw [← hcl]; exact hnl, evs2 ++ pre, suf, ?_,
            onlyShots_append hsho hpre, hsuf⟩
          rw [hev, hcl]
          simp [List.append_assoc]
        · refine Or.inr ⟨hh3, by rw [← hcl]; exact hle, evs2 ++ pre, ?_,
            onlyShots_append hsho hpre⟩
          rw [hev, hcl, hcs]
          simp [List.append_assoc]
    · -- damage at this enemy
      rcases hdmg with ⟨a2, pre, hpe, hdcore, hnl, hpres⟩ | ⟨a2, pre, hpe, hdcore, hle, hpres⟩
      · -- hit, run continues
        rw [goE, hpe] at heq
        simp only [] at heq
        obtain ⟨hdp, hdl, hds, hdv, hdw⟩ := hdcore
        obtain ⟨ihS, ihV, ihW, ihD⟩ := ih a2 _ a1 sur evs1 h heq
        have hi25 : a2.player.invincible = 2.5 := by rw [hdp]
        refine ⟨ihS.trans hds, ihV.trans hdv, ihW.trans hdw, ?_⟩
        rcases ihD with ⟨hl, hp, hh3, post, hev, hpost⟩ | ⟨hi2, _, _, _⟩
        · refine Or.inr ⟨hinv, by rw [hl, hdl], by rw [hp, hdp], Or.inl ⟨hh3, hnl, pre, post, ?_, hpres, hpost⟩⟩
          rw [hev]
          simp [List.append_assoc]
        · rw [hi25] at hi2
          norm_num at hi2
      · -- hit, game over halts the step
        rw [goE, hpe] at heq
        simp only [Prod.mk.injEq] at heq
        obtain ⟨ha, _, he, hh⟩ := heq
        subst ha he hh
        obtain ⟨hdp, hdl, hds, hdv, hdw⟩ := hdcore
        refine ⟨hds, hdv, hdw, Or.inr ⟨hinv, hdl, hdp, Or.inr ⟨rfl, hle, pre, ?_, hpres⟩⟩⟩
        simp [List.append_assoc]

/-- Enemies surviving the enemy pass all come from the processed list with
their point values unchanged; in particular nonnegative point values are
preserved. -/
theorem goE_points (M : MathOps) (O : Oracle) (dt Wd Ht : ℚ) (l : List Enemy) :
    ∀ (a : Act) (evs : List Ev) (a1 : Act) (sur : List Enemy) (evs1 : List Ev) (h : Bool),
      goE M O dt Wd Ht a evs l = (a1, sur, evs1, h) →
      (∀ e ∈ l, 0 ≤ e.points) → ∀ e ∈ sur, 0 ≤ e.points := by
  induction l with
  | nil =>
    intro a evs a1 sur evs1 h heq _
    simp only [goE, Prod.mk.injEq] at heq
    obtain ⟨_, hs, _, _⟩ := heq
    rw [← hs]
    intro e he
    cases he
  | cons e rest ih =>
    intro a evs a1 sur evs1 h heq hl
    have hlHead : 0 ≤ e.points := hl e (by simp)
    have hlTail : ∀ x ∈ rest, 0 ≤ x.points := fun x hx => hl x (by simp [hx])
    rcases processEnemy_spec M O dt Wd Ht a e with
      ⟨a2, e1, evs2, hpe, _, _, hpts⟩ | ⟨a2, evs2, hpe, _, _⟩ | ⟨_, hdmg⟩
    · rcases hrec : goE M O dt Wd Ht a2 (evs ++ evs2) rest with ⟨a3, sur3, evs3, h3⟩
      rw [goE, hpe] at heq
      simp only [] at heq
      rw [hrec] at heq
      simp only [Prod.mk.injEq] at heq
      obtain ⟨_, hs, _, _⟩ := heq
      rw [← hs]
      intro x hx
      rcases List.mem_append.1 hx with hx | hx
      · exact ih a2 (evs ++ evs2) a3 sur3 evs3 h3 hrec hlTail x hx
      · have : x = e1 := by simpa using hx
        rw [this, hpts]
        exact hlHead
    · rw [goE, hpe] at heq
      simp only [] at heq
      exact ih a2 (evs ++ evs2) a1 sur evs1 h heq hlTail
    · rcases hdmg with ⟨a2, pre, hpe, _, _, _⟩ | ⟨a2, pre, hpe, _, _, _⟩
      · rw [goE, hpe] at heq
        simp only [] at heq
        exact ih a2 _ a1 sur evs1 h heq hlTail
      · rw [goE, hpe] at heq
        simp only [Prod.mk.injEq] at heq
        obtain ⟨_, hs, _, _⟩ := heq
        rw [← hs]
        intro x hx
        exact hlTail x (by simpa using hx)

/-- A `none` result of the inner enemy scan means no scanned enemy
intersects the bullet. -/
theorem hitScan_none (b : Bullet) :
    ∀ l : List Enemy, hitScan b l = none → ∀ x ∈ l, enemyHit b x = false := by
  intro l
  induction l with
  | nil =>
    intro _ x hx
    cases hx
  | cons e rest ih =>
    intro heq x hx
    unfold hitScan at heq
    by_cases hh : enemyHit b e = true
    · rw [if_pos hh] at heq
      cases heq
    · rw [if_neg hh] at heq
      rcases hsc : hitScan b rest with _ | ⟨⟨pre, e1, post⟩⟩ <;> rw [hsc] at heq
      · rcases List.mem_cons.1 hx with rfl | hx
        · exact Bool.not_eq_true _ ▸ eq_false_of_ne_true hh
        · exact ih hsc x hx
      · cases heq

/-- A `some (pre, e, post)` result of the inner enemy scan splits the list
at the first intersecting enemy: the list is `pre ++ e :: post`, `e` is hit,
and nothing in `pre` is. -/
theorem hitScan_some (b : Bullet) :
    ∀ (l pre : List Enemy) (e : Enemy) (post : List Enemy),
      hitScan b l = some (pre, e, post) →
      l = pre ++ e :: post ∧ enemyHit b e = true ∧ ∀ x ∈ pre, enemyHit b x = false := by
  intro l
  induction l with
  | nil =>
    intro pre e post heq
    cases heq
  | cons y rest ih =>
    intro pre e post heq
    unfold hitScan at heq
    by_cases hh : enemyHit b y = true
    · rw [if_pos hh] at heq
      simp only [Option.some.injEq, Prod.mk.injEq] at heq
      obtain ⟨h1, h2, h3⟩ := heq
      rw [← h1, ← h2, ← h3]
      exact ⟨rfl, hh, by intro x hx; cases hx⟩
    · rw [if_neg hh] at heq
      rcases hsc : hitScan b rest with _ | ⟨⟨pre1, e1, post1⟩⟩ <;> rw [hsc] at heq
      · cases heq
      · simp only [Option.some.injEq, Prod.mk.injEq] at heq
        obtain ⟨h1, h2, h3⟩ := heq
        obtain ⟨hl, hhit, hpres⟩ := ih pre1 e1 post1 hsc
        rw [← h1, ← h2, ← h3]
        refine ⟨by rw [hl]; rfl, hhit, ?_⟩
        intro x hx
        rcases List.mem_cons.1 hx with rfl | hx
        · exact eq_false_of_ne_true hh
        · exact hpres x hx

/-- Everything the kill-resolution block does to the scalar state and the
notifications (source lines 340-356): score gains exactly
`points × level` with a score-changed event carrying the new total, the kill
counter increments by one, and the level increments (with its notification)
exactly when the new kill count is a multiple of 12; the player, lives and
the enemies array are untouched and no life-related event is emitted. -/
theorem resolveKill_spec (M : MathOps) (O : Oracle) (Wd Ht : ℚ) (e : Enemy) (a : Act) :
    (resolveKill M O Wd Ht e a).1.score = a.score + e.points * a.level ∧
    (resolveKill M O Wd Ht e a).1.level =
      (if (a.wave + 1).tmod 12 = 0 then a.level + 1 else a.level) ∧
    (resolveKill M O Wd Ht e a).1.wave = a.wave + 1 ∧
    (resolveKill M O Wd Ht e a).1.enemies = a.enemies ∧
    (resolveKill M O Wd Ht e a).1.player = a.player ∧
    (resolveKill M O Wd Ht e a).1.lives = a.lives ∧
    cleanEvs (resolveKill M O Wd Ht e a).2 ∧
    Ev.scoreChanged (a.score + e.points * a.level) ∈ (resolveKill M O Wd Ht e a).2 ∧
    (Ev.levelChanged (a.level + 1) ∈ (resolveKill M O Wd Ht e a).2 ↔
      (a.wave + 1).tmod 12 = 0) := by
  unfold resolveKill
  simp only []
  by_cases hw : (a.wave + 1).tmod 12 = 0
  · rw [if_pos hw, if_pos hw]
    refine ⟨rfl, rfl, rfl, rfl, rfl, rfl, ?_, by simp, by simp [hw]⟩
    intro ev hm
    simp only [List.append_eq, List.cons_append, List.nil_append, List.mem_cons,
      List.not_mem_nil, or_false] at hm
    rcases hm with rfl | rfl | rfl | rfl <;>
      exact ⟨by simp, by simp, by intro n; simp, by intro n; simp⟩
  · rw [if_neg hw, if_neg hw]
    refine ⟨rfl, rfl, rfl, rfl, rfl, rfl, ?_, by simp, by simp [hw]⟩
    intro ev hm
    simp only [List.mem_cons, List.not_mem_nil, or_false] at hm
    rcases hm with rfl | rfl <;>
      exact ⟨by simp, by simp, by intro n; simp, by intro n; simp⟩

theorem cleanEvs_hit : cleanEvs [Ev.hit] := by
  intro ev hm
  simp only [List.mem_singleton] at hm
  subst hm
  exact ⟨by simp, by simp, by intro n; simp, by intro n; simp⟩

theorem resolveKill_player (M : MathOps) (O : Oracle) (Wd Ht : ℚ) (e : Enemy) (x : Act) :
    (resolveKill M O Wd Ht e x).1.player = x.player :=
  (resolveKill_spec M O Wd Ht e x).2.2.2.2.1

theorem resolveKill_lives (M : MathOps) (O : Oracle) (Wd Ht : ℚ) (e : Enemy) (x : Act) :
    (resolveKill M O Wd Ht e x).1.lives = x.lives :=
  (resolveKill_spec M O Wd Ht e x).2.2.2.2.2.1

theorem resolveKill_clean (M : MathOps) (O : Oracle) (Wd Ht : ℚ) (e : Enemy) (x : Act) :
    cleanEvs (resolveKill M O Wd Ht e x).2 :=
  (resolveKill_spec M O Wd Ht e x).2.2.2.2.2.2.1

/-- Case analysis of one bullet-pass iteration: expiry and player-bullet
resolution never touch the player or lives and emit no life-related event;
an enemy bullet can damage only a non-invincible player, and then behaves
exactly like the enemy-pass hit (one life, 2.5s invincibility, game-over
events exactly on the last life). -/
theorem processBullet_spec (M : MathOps) (O : Oracle) (dt Wd Ht : ℚ) (a : Act) (b : Bullet) :
    (∃ a1 b1 evs1, processBullet M O dt Wd Ht a b = BOut.keep a1 b1 evs1 ∧
        a1.player = a.player ∧ a1.lives = a.lives ∧ cleanEvs evs1) ∨
    (∃ a1 evs1, processBullet M O dt Wd Ht a b = BOut.gone a1 evs1 ∧
        a1.player = a.player ∧ a1.lives = a.lives ∧ cleanEvs evs1) ∨
    (a.player.invincible ≤ 0 ∧
      ((∃ a1, processBullet M O dt Wd Ht a b =
            BOut.gone a1 [Ev.damage, Ev.livesChanged (a.lives - 1)] ∧
          dmgCore a a1 ∧ ¬(a.lives - 1 ≤ 0)) ∨
       (∃ a1, processBullet M O dt Wd Ht a b =
            BOut.halt a1 [Ev.damage, Ev.livesChanged (a.lives - 1),
                          Ev.gameOverSfx, Ev.gameOver a.score] ∧
          dmgCore a a1 ∧ a.lives - 1 ≤ 0))) := by
  unfold processBullet
  by_cases hg : bulletGone Wd Ht (movedBullet dt b) = true
  · rw [if_pos hg]
    right; left
    exact ⟨a, [], rfl, rfl, rfl, cleanEvs_nil⟩
  · rw [if_neg hg]
    have ho : (movedBullet dt b).owner = b.owner := rfl
    cases hbo : b.owner with
    | player =>
      simp only [ho, hbo]
      rcases hscan : bulletEnemyScan (movedBullet dt b) a.enemies with _ | ⟨⟨pre, e, post⟩⟩ <;>
        simp only [hscan]
      · left
        exact ⟨a, movedBullet dt b, [], rfl, rfl, rfl, cleanEvs_nil⟩
      · by_cases hk : e.hp - (movedBullet dt b).damage ≤ 0
        · rw [if_pos hk]
          right; left
          refine ⟨_, _, rfl, ?_, ?_, ?_⟩
          · rw [resolveKill_player]
          · rw [resolveKill_lives]
          · exact cleanEvs_append cleanEvs_hit (resolveKill_clean M O Wd Ht e _)
        · rw [if_neg hk]
          right; left
          exact ⟨_, [Ev.hit], rfl, rfl, rfl, cleanEvs_hit⟩
    | enemy =>
      simp only [ho, hbo]
      by_cases hc : (decide (a.player.invincible ≤ 0) &&
          circRect (movedBullet dt b).pos.x (movedBullet dt b).pos.y (movedBullet dt b).radius
            a.player.pos.x a.player.pos.y a.player.width a.player.height) = true
      · rw [if_pos hc]
        have hinv : a.player.invincible ≤ 0 := by
          have hc2 := hc
          rw [Bool.and_eq_true] at hc2
          exact of_decide_eq_true hc2.1
        set dp := damagePlayer a 0.7
            (explodeParts M O (a.player.pos.x + a.player.width / 2)
              (a.player.pos.y + a.player.height / 2) Color.red 14) with hdp
        have hspec := damagePlayer_spec a 0.7
            (explodeParts M O (a.player.pos.x + a.player.width / 2)
              (a.player.pos.y + a.player.height / 2) Color.red 14)
        rw [← hdp] at hspec
        obtain ⟨hp1, hp2, hp3, hp4, hp5, _, _, hpH, hpE⟩ := hspec
        have hdcore : dmgCore a dp.1 := ⟨hp1, hp2, hp3, hp4, hp5⟩
        by_cases hlast : a.lives - 1 ≤ 0
        · have hb : dp.2.2 = true := hpH.2 hlast
          rw [if_pos hb]
          right; right
          refine ⟨hinv, Or.inr ⟨dp.1, ?_, hdcore, hlast⟩⟩
          rw [hpE, if_pos hlast]
          rfl
        · have hb : ¬(dp.2.2 = true) := fun hcc => hlast (hpH.1 hcc)
          rw [if_neg hb]
          right; right
          refine ⟨hinv, Or.inl ⟨dp.1, ?_, hdcore, hlast⟩⟩
          rw [hpE, if_neg hlast]
          simp
      · rw [if_neg hc]
        left
        exact ⟨a, movedBullet dt b, [], rfl, rfl, rfl, cleanEvs_nil⟩

/-- The bullet pass either leaves lives and the player untouched and emits
no life-related event, or (only when the pass began with a non-invincible
player) resolves exactly one enemy-bullet player hit, and halts with the
game-over events, the last one carrying the final score, exactly when that
was the last life. -/
theorem goB_spec (M : MathOps) (O : Oracle) (dt Wd Ht : ℚ) (l : List Bullet) :
    ∀ (a : Act) (evs : List Ev) (a1 : Act) (sur : List Bullet) (evs1 : List Ev) (h : Bool),
      goB M O dt Wd Ht a evs l = (a1, sur, evs1, h) →
      ((a1.lives = a.lives ∧ a1.player = a.player ∧ h = false ∧
        ∃ post, evs1 = evs ++ post ∧ cleanEvs post) ∨
       (a.player.invincible ≤ 0 ∧ a1.lives = a.lives - 1 ∧
        a1.player = { a.player with invincible := 2.5 } ∧
        ((h = false ∧ ¬(a.lives - 1 ≤ 0) ∧
          ∃ pre suf, evs1 = evs ++ pre ++ [Ev.damage, Ev.livesChanged (a.lives - 1)] ++ suf ∧
            cleanEvs pre ∧ cleanEvs suf) ∨
         (h = true ∧ a.lives - 1 ≤ 0 ∧
          ∃ pre, evs1 = evs ++ pre ++ [Ev.damage, Ev.livesChanged (a.lives - 1),
                                       Ev.gameOverSfx, Ev.gameOver a1.score] ∧
            cleanEvs pre)))) := by
  induction l with
  | nil =>
    intro a evs a1 sur evs1 h heq
    simp only [goB, Prod.mk.injEq] at heq
    obtain ⟨ha, _, he, hh⟩ := heq
    subst ha he hh
    exact Or.inl ⟨rfl, rfl, rfl, [], by simp, cleanEvs_nil⟩
  | cons b rest ih =>
    intro a evs a1 sur evs1 h heq
    rcases processBullet_spec M O dt Wd Ht a b with
      ⟨a2, b1, evs2, hpb, hp, hl, hcl⟩ | ⟨a2, evs2, hpb, hp, hl, hcl⟩ | ⟨hinv, hdmg⟩
    · -- kept bullet
      rcases hrec : goB M O dt Wd Ht a2 (evs ++ evs2) rest with ⟨a3, sur3, evs3, h3⟩
      rw [goB, hpb] at heq
      simp only [] at heq
      rw [hrec] at heq
      simp only [Prod.mk.injEq] at heq
      obtain ⟨ha, _, he, hh⟩ := heq
      subst ha he hh
      rcases ih a2 (evs ++ evs2) a3 sur3 evs3 h3 hrec with
        ⟨ihl, ihp, ihh, post, hev, hpost⟩ | ⟨ii, ihl, ihp, hrest⟩
      · exact Or.inl ⟨ihl.trans hl, ihp.trans hp, ihh,
          evs2 ++ post, by rw [hev, List.append_assoc], cleanEvs_append hcl hpost⟩
      · refine Or.inr ⟨hp ▸ ii, by rw [ihl, hl], by rw [ihp, hp], ?_⟩
        rcases hrest with ⟨hh3, hnl, pre, suf, hev, hpre, hsuf⟩ | ⟨hh3, hle, pre, hev, hpre⟩
        · refine Or.inl ⟨hh3, by rw [← hl]; exact hnl, evs2 ++ pre, suf, ?_,
            cleanEvs_append hcl hpre, hsuf⟩
          rw [hev, hl]
          simp [List.append_assoc]
        · refine Or.inr ⟨hh3, by rw [← hl]; exact hle, evs2 ++ pre, ?_,
            cleanEvs_append hcl hpre⟩
          rw [hev, hl]
          simp [List.append_assoc]
    · -- removed bullet, no damage
      rw [goB, hpb] at heq
      simp only [] at heq
      rcases ih a2 (evs ++ evs2) a1 sur evs1 h heq with
        ⟨ihl, ihp, ihh, post, hev, hpost⟩ | ⟨ii, ihl, ihp, hrest⟩
      · exact Or.inl ⟨ihl.trans hl, ihp.trans hp, ihh,
          evs2 ++ post, by rw [hev, List.append_assoc], cleanEvs_append hcl hpost⟩
      · refine Or.inr ⟨hp ▸ ii, by rw [ihl, hl], by rw [ihp, hp], ?_⟩
        rcases hrest with ⟨hh3, hnl, pre, suf, hev, hpre, hsuf⟩ | ⟨hh3, hle, pre, hev, hpre⟩
        · refine Or.inl ⟨hh3, by rw [← hl]; exact hnl, evs2 ++ pre, suf, ?_,
            cleanEvs_append hcl hpre, hsuf⟩
          rw [hev, hl]
          simp [List.append_assoc]
        · refine Or.inr ⟨hh3, by rw [← hl]; exact hle, evs2 ++ pre, ?_,
            cleanEvs_append hcl hpre⟩
          rw [hev, hl]
          simp [List.append_assoc]
    · -- enemy bullet damaged the player
      rcases hdmg with ⟨a2, hpb, hdcore, hnl⟩ | ⟨a2, hpb, hdcore, hle⟩
      · -- run continues with the invincibility window set
        rw [goB, hpb] at heq
        simp only [] at heq
        obtain ⟨hdp, hdl, hds, hdv, hdw⟩ := hdcore
        have hi25 : a2.player.invincible = 2.5 := by rw [hdp]
        rcases ih a2 _ a1 sur evs1 h heq with
          ⟨ihl, ihp, ihh, post, hev, hpost⟩ | ⟨ii, _, _, _⟩
        · refine Or.inr ⟨hinv, by rw [ihl, hdl], by rw [ihp, hdp],
            Or.inl ⟨ihh, hnl, [], post, ?_, cleanEvs_nil, hpost⟩⟩
          rw [hev]
          simp [List.append_assoc]
        · rw [hi25] at ii
          norm_num at ii
      · -- game over halts the step
        rw [goB, hpb] at heq
        simp only [Prod.mk.injEq] at heq
        obtain ⟨ha, _, he, hh⟩ := heq
        subst ha he hh
        obtain ⟨hdp, hdl, hds, hdv, hdw⟩ := hdcore
        refine Or.inr ⟨hinv, hdl, hdp, Or.inr ⟨rfl, hle, [], ?_, cleanEvs_nil⟩⟩
        rw [hds]
        simp

theorem resolveKill_enemies (M : MathOps) (O : Oracle) (Wd Ht : ℚ) (e : Enemy) (x : Act) :
    (resolveKill M O Wd Ht e x).1.enemies = x.enemies :=
  (resolveKill_spec M O Wd Ht e x).2.2.2.1

theorem resolveKill_score_le (M : MathOps) (O : Oracle) (Wd Ht : ℚ) (e : Enemy) (x : Act)
    (h1 : 0 ≤ e.points) (h2 : 0 ≤ x.level) :
    x.score ≤ (resolveKill M O Wd Ht e x).1.score := by
  rw [(resolveKill_spec M O Wd Ht e x).1]
  have := mul_nonneg h1 h2
  omega

theorem resolveKill_level_le (M : MathOps) (O : Oracle) (Wd Ht : ℚ) (e : Enemy) (x : Act) :
    x.level ≤ (resolveKill M O Wd Ht e x).1.level := by
  rw [(resolveKill_spec M O Wd Ht e x).2.1]
  split_ifs <;> omega

/-- One bullet-pass iteration never decreases score or level and preserves
nonnegativity of every remaining enemy's point value. -/
theorem processBullet_score (M : MathOps) (O : Oracle) (dt Wd Ht : ℚ) (a : Act) (b : Bullet)
    (hlvl : 0 ≤ a.level) (hen : ∀ e ∈ a.enemies, 0 ≤ e.points) :
    a.score ≤ (boutAct (processBullet M O dt Wd Ht a b)).score ∧
    a.level ≤ (boutAct (processBullet M O dt Wd Ht a b)).level ∧
    (∀ e ∈ (boutAct (processBullet M O dt Wd Ht a b)).enemies, 0 ≤ e.points) := by
  unfold processBullet
  by_cases hg : bulletGone Wd Ht (movedBullet dt b) = true
  · rw [if_pos hg]
    exact ⟨le_refl _, le_refl _, hen⟩
  · rw [if_neg hg]
    have ho : (movedBullet dt b).owner = b.owner := rfl
    cases hbo : b.owner with
    | player =>
      simp only [ho, hbo]
      rcases hscan : bulletEnemyScan (movedBullet dt b) a.enemies with _ | ⟨⟨pre, e, post⟩⟩ <;>
        simp only [hscan]
      · exact ⟨le_refl _, le_refl _, hen⟩
      · obtain ⟨hdec, _, _⟩ := hitScan_some (movedBullet dt b) a.enemies.reverse pre e post hscan
        have hmem : ∀ x : Enemy, x ∈ pre ∨ x = e ∨ x ∈ post → x ∈ a.enemies := by
          intro x hx
          rw [← List.mem_reverse, hdec]
          simp only [List.mem_append, List.mem_cons]
          tauto
        have hept : 0 ≤ e.points := hen e (hmem e (Or.inr (Or.inl rfl)))
        by_cases hk : e.hp - (movedBullet dt b).damage ≤ 0
        · rw [if_pos hk]
          simp only [boutAct]
          refine ⟨resolveKill_score_le M O Wd Ht e _ hept hlvl,
                  resolveKill_level_le M O Wd Ht e _, ?_⟩
          rw [resolveKill_enemies]
          intro x hx
          simp only [List.mem_append, List.mem_reverse] at hx
          rcases hx with hx | hx
          · exact hen x (hmem x (Or.inr (Or.inr hx)))
          · exact hen x (hmem x (Or.inl hx))
        · rw [if_neg hk]
          simp only [boutAct]
          refine ⟨le_refl _, le_refl _, ?_⟩
          intro x hx
          simp only [List.mem_append, List.mem_reverse, List.mem_singleton] at hx
          rcases hx with (hx | hx) | hx
          · exact hen x (hmem x (Or.inr (Or.inr hx)))
          · rw [hx]
            exact hept
          · exact hen x (hmem x (Or.inl hx))
    | enemy =>
      simp only [ho, hbo]
      by_cases hc : (decide (a.player.invincible ≤ 0) &&
          circRect (movedBullet dt b).pos.x (movedBullet dt b).pos.y (movedBullet dt b).radius
            a.player.pos.x a.player.pos.y a.player.width a.player.height) = true
      · rw [if_pos hc]
        obtain ⟨_, _, hp3, hp4, _, hpen, _, _, _⟩ := damagePlayer_spec a 0.7
            (explodeParts M O (a.player.pos.x + a.player.width / 2)
              (a.player.pos.y + a.player.height / 2) Color.red 14)
        by_cases hb : (damagePlayer a 0.7
            (explodeParts M O (a.player.pos.x + a.player.width / 2)
              (a.player.pos.y + a.player.height / 2) Color.red 14)).2.2 = true
        · rw [if_pos hb]
          simp only [boutAct]
          rw [hp3, hp4, hpen]
          exact ⟨le_refl _, le_refl _, hen⟩
        · rw [if_neg hb]
          simp only [boutAct]
          rw [hp3, hp4, hpen]
          exact ⟨le_refl _, le_refl _, hen⟩
      · rw [if_neg hc]
        exact ⟨le_refl _, le_refl _, hen⟩

/-- The bullet pass never decreases score or level, and keeps every
remaining enemy's point value nonnegative. -/
theorem goB_score (M : MathOps) (O : Oracle) (dt Wd Ht : ℚ) (l : List Bullet) :
    ∀ (a : Act) (evs : List Ev) (a1 : Act) (sur : List Bullet) (evs1 : List Ev) (h : Bool),
      goB M O dt Wd Ht a evs l = (a1, sur, evs1, h) →
      0 ≤ a.level → (∀ e ∈ a.enemies, 0 ≤ e.points) →
      a.score ≤ a1.score ∧ a.level ≤ a1.level ∧ (∀ e ∈ a1.enemies, 0 ≤ e.points) := by
  induction l with
  | nil =>
    intro a evs a1 sur evs1 h heq hlvl hen
    simp only [goB, Prod.mk.injEq] at heq
    obtain ⟨ha, _, _, _⟩ := heq
    rw [← ha]
    exact ⟨le_refl _, le_refl _, hen⟩
  | cons b rest ih =>
    intro a evs a1 sur evs1 h heq hlvl hen
    have hsc := processBullet_score M O dt Wd Ht a b hlvl hen
    cases hpb : processBullet M O dt Wd Ht a b with
    | keep a2 b2 evs2 =>
      rw [hpb] at hsc
      simp only [boutAct] at hsc
      obtain ⟨hs2, hl2, he2⟩ := hsc
      rcases hrec : goB M O dt Wd Ht a2 (evs ++ evs2) rest with ⟨a3, sur3, evs3, h3⟩
      rw [goB, hpb] at heq
      simp only [] at heq
      rw [hrec] at heq
      simp only [Prod.mk.injEq] at heq
      obtain ⟨ha, _, _, _⟩ := heq
      rw [← ha]
      obtain ⟨hs3, hl3, he3⟩ := ih a2 (evs ++ evs2) a3 sur3 evs3 h3 hrec (le_trans hlvl hl2) he2
      exact ⟨le_trans hs2 hs3, le_trans hl2 hl3, he3⟩
    | gone a2 evs2 =>
      rw [hpb] at hsc
      simp only [boutAct] at hsc
      obtain ⟨hs2, hl2, he2⟩ := hsc
      rw [goB, hpb] at heq
      simp only [] at heq
      obtain ⟨hs3, hl3, he3⟩ := ih a2 (evs ++ evs2) a1 sur evs1 h heq (le_trans hlvl hl2) he2
      exact ⟨le_trans hs2 hs3, le_trans hl2 hl3, he3⟩
    | halt a2 evs2 =>
      rw [hpb] at hsc
      simp only [boutAct] at hsc
      rw [goB, hpb] at heq
      simp only [Prod.mk.injEq] at heq
      obtain ⟨ha, _, _, _⟩ := heq
      rw [← ha]
      exact hsc

theorem cleanEvs_shoot : cleanEvs [Ev.shoot] := by
  intro ev hm
  simp only [List.mem_singleton] at hm
  subst hm
  exact ⟨by simp, by simp, by intro n; simp, by intro n; simp⟩

theorem movementPhase_inv (M : MathOps) (dt Wd Ht : ℚ) (inp : Input) (p : Player) :
    (movementPhase M dt Wd Ht inp p).invincible = max 0 (p.invincible - dt) := rfl

theorem shootPhase_player (dt : ℚ) (inp : Input) (a : Act) :
    (shootPhase dt inp a).1.player = a.player := by
  unfold shootPhase
  by_cases h : inp.fire = true ∧ max 0 (a.shootCooldown - dt) ≤ 0
  · rw [if_pos h]
  · rw [if_neg h]

theorem shootPhase_lives (dt : ℚ) (inp : Input) (a : Act) :
    (shootPhase dt inp a).1.lives = a.lives := by
  unfold shootPhase
  by_cases h : inp.fire = true ∧ max 0 (a.shootCooldown - dt) ≤ 0
  · rw [if_pos h]
  · rw [if_neg h]

theorem shootPhase_score (dt : ℚ) (inp : Input) (a : Act) :
    (shootPhase dt inp a).1.score = a.score := by
  unfold shootPhase
  by_cases h : inp.fire = true ∧ max 0 (a.shootCooldown - dt) ≤ 0
  · rw [if_pos h]
  · rw [if_neg h]

theorem shootPhase_level (dt : ℚ) (inp : Input) (a : Act) :
    (shootPhase dt inp a).1.level = a.level := by
  unfold shootPhase
  by_cases h : inp.fire = true ∧ max 0 (a.shootCooldown - dt) ≤ 0
  · rw [if_pos h]
  · rw [if_neg h]

theorem shootPhase_wave (dt : ℚ) (inp : Input) (a : Act) :
    (shootPhase dt inp a).1.wave = a.wave := by
  unfold shootPhase
  by_cases h : inp.fire = true ∧ max 0 (a.shootCooldown - dt) ≤ 0
  · rw [if_pos h]
  · rw [if_neg h]

theorem shootPhase_enemies (dt : ℚ) (inp : Input) (a : Act) :
    (shootPhase dt inp a).1.enemies = a.enemies := by
  unfold shootPhase
  by_cases h : inp.fire = true ∧ max 0 (a.shootCooldown - dt) ≤ 0
  · rw [if_pos h]
  · rw [if_neg h]

theorem shootPhase_timer (dt : ℚ) (inp : Input) (a : Act) :
    (shootPhase dt inp a).1.enemySpawnTimer = a.enemySpawnTimer := by
  unfold shootPhase
  by_cases h : inp.fire = true ∧ max 0 (a.shootCooldown - dt) ≤ 0
  · rw [if_pos h]
  · rw [if_neg h]

theorem shootPhase_interval (dt : ℚ) (inp : Input) (a : Act) :
    (shootPhase dt inp a).1.enemySpawnInterval = a.enemySpawnInterval := by
  unfold shootPhase
  by_cases h : inp.fire = true ∧ max 0 (a.shootCooldown - dt) ≤ 0
  · rw [if_pos h]
  · rw [if_neg h]

theorem shootPhase_clean (dt : ℚ) (inp : Input) (a : Act) :
    cleanEvs (shootPhase dt inp a).2 := by
  unfold shootPhase
  by_cases h : inp.fire = true ∧ max 0 (a.shootCooldown - dt) ≤ 0
  · rw [if_pos h]
    exact cleanEvs_shoot
  · rw [if_neg h]
    exact cleanEvs_nil

theorem spawnPhase_player (M : MathOps) (O : Oracle) (dt Wd : ℚ) (a : Act) :
    (spawnPhase M O dt Wd a).player = a.player := by
  unfold spawnPhase
  by_cases h : a.enemySpawnTimer + dt ≥ a.enemySpawnInterval
  · rw [if_pos h]
  · rw [if_neg h]

theorem spawnPhase_lives (M : MathOps) (O : Oracle) (dt Wd : ℚ) (a : Act) :
    (spawnPhase M O dt Wd a).lives = a.lives := by
  unfold spawnPhase
  by_cases h : a.enemySpawnTimer + dt ≥ a.enemySpawnInterval
  · rw [if_pos h]
  · rw [if_neg h]

theorem spawnPhase_score (M : MathOps) (O : Oracle) (dt Wd : ℚ) (a : Act) :
    (spawnPhase M O dt Wd a).score = a.score := by
  unfold spawnPhase
  by_cases h : a.enemySpawnTimer + dt ≥ a.enemySpawnInterval
  · rw [if_pos h]
  · rw [if_neg h]

theorem spawnPhase_level (M : MathOps) (O : Oracle) (dt Wd : ℚ) (a : Act) :
    (spawnPhase M O dt Wd a).level = a.level := by
  unfold spawnPhase
  by_cases h : a.enemySpawnTimer + dt ≥ a.enemySpawnInterval
  · rw [if_pos h]
  · rw [if_neg h]

theorem spawnPhase_wave (M : MathOps) (O : Oracle) (dt Wd : ℚ) (a : Act) :
    (spawnPhase M O dt Wd a).wave = a.wave := by
  unfold spawnPhase
  by_cases h : a.enemySpawnTimer + dt ≥ a.enemySpawnInterval
  · rw [if_pos h]
  · rw [if_neg h]

theorem spawnPhase_bullets (M : MathOps) (O : Oracle) (dt Wd : ℚ) (a : Act) :
    (spawnPhase M O dt Wd a).bullets = a.bullets := by
  unfold spawnPhase
  by_cases h : a.enemySpawnTimer + dt ≥ a.enemySpawnInterval
  · rw [if_pos h]
  · rw [if_neg h]

theorem spawnPhase_enemies (M : MathOps) (O : Oracle) (dt Wd : ℚ) (a : Act) :
    (spawnPhase M O dt Wd a).enemies = a.enemies ∨
    (spawnPhase M O dt Wd a).enemies = a.enemies ++ [spawnedEnemy M O a.level Wd] := by
  unfold spawnPhase
  by_cases h : a.enemySpawnTimer + dt ≥ a.enemySpawnInterval
  · rw [if_pos h]
    right
    rfl
  · rw [if_neg h]
    left
    rfl

theorem preLoops_player (M : MathOps) (O : Oracle) (dt : ℚ) (inp : Input) (Wd Ht : ℚ)
    (p : Player) (w : World) :
    (preLoops M O dt inp Wd Ht p w).1.player = movementPhase M dt Wd Ht inp p := by
  unfold preLoops
  rw [spawnPhase_player, shootPhase_player]

theorem preLoops_lives (M : MathOps) (O : Oracle) (dt : ℚ) (inp : Input) (Wd Ht : ℚ)
    (p : Player) (w : World) :
    (preLoops M O dt inp Wd Ht p w).1.lives = w.lives := by
  unfold preLoops
  rw [spawnPhase_lives, shootPhase_lives]

theorem preLoops_score (M : MathOps) (O : Oracle) (dt : ℚ) (inp : Input) (Wd Ht : ℚ)
    (p : Player) (w : World) :
    (preLoops M O dt inp Wd Ht p w).1.score = w.score := by
  unfold preLoops
  rw [spawnPhase_score, shootPhase_score]

theorem preLoops_level (M : MathOps) (O : Oracle) (dt : ℚ) (inp : Input) (Wd Ht : ℚ)
    (p : Player) (w : World) :
    (preLoops M O dt inp Wd Ht p w).1.level = w.level := by
  unfold preLoops
  rw [spawnPhase_level, shootPhase_level]

theorem preLoops_clean (M : MathOps) (O : Oracle) (dt : ℚ) (inp : Input) (Wd Ht : ℚ)
    (p : Player) (w : World) :
    cleanEvs (preLoops M O dt inp Wd Ht p w).2 := by
  unfold preLoops
  exact shootPhase_clean dt inp _

theorem preLoops_enemies (M : MathOps) (O : Oracle) (dt : ℚ) (inp : Input) (Wd Ht : ℚ)
    (p : Player) (w : World) :
    (preLoops M O dt inp Wd Ht p w).1.enemies = w.enemies ∨
    (preLoops M O dt inp Wd Ht p w).1.enemies =
      w.enemies ++ [spawnedEnemy M O w.level Wd] := by
  unfold preLoops
  rcases spawnPhase_enemies M O dt Wd (shootPhase dt inp
      { player := movementPhase M dt Wd Ht inp p,
        bullets := w.bullets, enemies := w.enemies, particles := w.particles,
        stars := w.stars, floats := w.floats,
        score := w.score, lives := w.lives, level := w.level, wave := w.wave,
        shootCooldown := w.shootCooldown,
        enemySpawnTimer := w.enemySpawnTimer, enemySpawnInterval := w.enemySpawnInterval,
        shake := max 0 (w.shake - dt * 8), time := w.time + dt }).1 with hsp | hsp <;>
    rw [hsp, shootPhase_enemies]
  · left
    rfl
  · right
    rw [shootPhase_level]

theorem toWorld_player (w : World) (a : Act) : (toWorld w a).player = some a.player := rfl

theorem toWorld_lives (w : World) (a : Act) : (toWorld w a).lives = a.lives := rfl

theorem toWorld_score (w : World) (a : Act) : (toWorld w a).score = a.score := rfl

/-- The per-step life/invincibility/notification dichotomy of `update`:
either no player hit resolves (lives and the decremented invincibility
counter carry through, no life-related notification), or the step began
with at most `dt` seconds of invincibility left and exactly one hit
resolves — lives drop by exactly one, invincibility is 2.5 afterwards, one
damage and one lives-changed notification fire, and the game-over pair
(audio, then the notification carrying the final score, as the last events
of the step) fires exactly when the lost life was the last. -/
theorem update_master (M : MathOps) (O : Oracle) (dt : ℚ) (inp : Input) (Wd Ht : ℚ)
    (w : World) (p : Player) (w1 : World) (evs : List Ev)
    (hp : w.player = some p) (hu : update M O dt inp Wd Ht w = (w1, evs)) :
    (w1.lives = w.lives ∧
      (∃ p1, w1.player = some p1 ∧ p1.invincible = max 0 (p.invincible - dt)) ∧
      cleanEvs evs) ∨
    (p.invincible ≤ dt ∧ w1.lives = w.lives - 1 ∧
      (∃ p1, w1.player = some p1 ∧ p1.invincible = 2.5) ∧
      ((¬(w.lives - 1 ≤ 0) ∧
        ∃ pre suf, evs = pre ++ [Ev.damage, Ev.livesChanged (w.lives - 1)] ++ suf ∧
          cleanEvs pre ∧ cleanEvs suf) ∨
       (w.lives - 1 ≤ 0 ∧
        ∃ pre, evs = pre ++ [Ev.damage, Ev.livesChanged (w.lives - 1),
                             Ev.gameOverSfx, Ev.gameOver w1.score] ∧
          cleanEvs pre))) := by
  have hPinv : (preLoops M O dt inp Wd Ht p w).1.player.invincible =
      max 0 (p.invincible - dt) := by
    rw [preLoops_player, movementPhase_inv]
  have hPlives : (preLoops M O dt inp Wd Ht p w).1.lives = w.lives :=
    preLoops_lives M O dt inp Wd Ht p w
  have hPscore : (preLoops M O dt inp Wd Ht p w).1.score = w.score :=
    preLoops_score M O dt inp Wd Ht p w
  have hPclean : cleanEvs (preLoops M O dt inp Wd Ht p w).2 :=
    preLoops_clean M O dt inp Wd Ht p w
  have hinvle : max 0 (p.invincible - dt) ≤ 0 → p.invincible ≤ dt := by
    intro hx
    have := (max_le_iff.1 hx).2
    linarith
  unfold update at hu
  rw [hp] at hu
  simp only [] at hu
  rcases hE : goE M O dt Wd Ht (preLoops M O dt inp Wd Ht p w).1
      (preLoops M O dt inp Wd Ht p w).2
      (preLoops M O dt inp Wd Ht p w).1.enemies.reverse with ⟨a4, sur, evs4, h4⟩
  obtain ⟨hEs, hEv, hEw, hEd⟩ := goE_spec M O dt Wd Ht _ _ _ _ _ _ _ hE
  cases h4 with
  | true =>
    rw [hE] at hu
    simp only [Prod.mk.injEq] at hu
    obtain ⟨hw1, hevs⟩ := hu
    subst hw1 hevs
    rcases hEd with ⟨_, _, hfalse, _⟩ | ⟨hinv0, hl4, hp4, hEin⟩
    · simp at hfalse
    rcases hEin with ⟨hfalse, _⟩ | ⟨_, hle, pre, hev, hpres⟩
    · simp at hfalse
    right
    refine ⟨hinvle (hPinv ▸ hinv0), ?_, ⟨a4.player, rfl, by rw [hp4]⟩, Or.inr ⟨?_, ?_⟩⟩
    · rw [toWorld_lives]
      show a4.lives = w.lives - 1
      rw [hl4, hPlives]
    · rw [← hPlives]
      exact hle
    · refine ⟨(preLoops M O dt inp Wd Ht p w).2 ++ pre, ?_,
        cleanEvs_append hPclean (onlyShots_clean hpres)⟩
      rw [hev, hPlives]
      have hsc : (toWorld w { a4 with enemies := sur }).score =
          (preLoops M O dt inp Wd Ht p w).1.score := by
        rw [toWorld_score]
        show a4.score = _
        exact hEs
      rw [hsc]
  | false =>
    rw [hE] at hu
    simp only [] at hu
    rcases hB : goB M O dt Wd Ht { a4 with enemies := sur } evs4
        ({ a4 with enemies := sur }).bullets.reverse with ⟨a5, bsur, evs5, h5⟩
    have hBspec := goB_spec M O dt Wd Ht _ _ _ _ _ _ _ hB
    cases h5 with
    | true =>
      rw [hB] at hu
      simp only [Prod.mk.injEq] at hu
      obtain ⟨hw1, hevs⟩ := hu
      subst hw1 hevs
      rcases hBspec with ⟨_, _, hfalse, _⟩ | ⟨hinvB, hlB, hpB, hBin⟩
      · simp at hfalse
      rcases hBin with ⟨hfalse, _⟩ | ⟨_, hleB, preB, hevB, hpreB⟩
      · simp at hfalse
      -- the enemy pass cannot itself have damaged the player (2.5 > 0)
      rcases hEd with ⟨hlE, hpE, _, postE, hevE, hpostE⟩ | ⟨_, _, hpdmg, _⟩
      · have hl4 : ({ a4 with enemies := sur } : Act).lives = w.lives := by
          show a4.lives = w.lives
          rw [hlE, hPlives]
        have hinv' : (preLoops M O dt inp Wd Ht p w).1.player.invincible ≤ 0 := by
          rw [← hpE]
          exact hinvB
        right
        refine ⟨hinvle (hPinv ▸ hinv'), ?_, ⟨a5.player, rfl, by rw [hpB]⟩, Or.inr ⟨?_, ?_⟩⟩
        · rw [toWorld_lives]
          show a5.lives = w.lives - 1
          rw [hlB, hl4]
        · rw [← hl4]
          exact hleB
        · refine ⟨evs4 ++ preB, ?_, ?_⟩
          · rw [hevB, hl4]
            have hsc : (toWorld w { a5 with bullets := bsur }).score = a5.score := rfl
            rw [hsc]
          · refine cleanEvs_append ?_ hpreB
            rw [hevE]
            exact cleanEvs_append hPclean (onlyShots_clean hpostE)
      · have hc : ({ a4 with enemies := sur } : Act).player.invincible ≤ 0 := hinvB
        rw [show ({ a4 with enemies := sur } : Act).player = a4.player from rfl, hpdmg] at hc
        simp only [] at hc
        norm_num at hc
    | false =>
      rw [hB] at hu
      simp only [Prod.mk.injEq] at hu
      obtain ⟨hw1, hevs⟩ := hu
      subst hw1 hevs
      rcases hEd with ⟨hlE, hpE, _, postE, hevE, hpostE⟩ | ⟨hinvE, hlE, hpE, hEin⟩
      · -- enemy pass clean
        have hl4 : ({ a4 with enemies := sur } : Act).lives = w.lives := by
          show a4.lives = w.lives
          rw [hlE, hPlives]
        have hp4 : ({ a4 with enemies := sur } : Act).player =
            (preLoops M O dt inp Wd Ht p w).1.player := hpE
        rcases hBspec with ⟨hlB, hpB, _, postB, hevB, hpostB⟩ |
          ⟨hinvB, hlB, hpB, hBin⟩
        · -- bullet pass clean: no hit this step
          left
          refine ⟨?_, ⟨a5.player, rfl, ?_⟩, ?_⟩
          · rw [toWorld_lives]
            show a5.lives = w.lives
            rw [hlB, hl4]
          · rw [hpB, hp4, hPinv]
          · rw [hevB, hevE]
            exact cleanEvs_append (cleanEvs_append hPclean (onlyShots_clean hpostE)) hpostB
        · -- enemy bullet hit, run continues
          rcases hBin with ⟨_, hnlB, preB, sufB, hevB, hpreB, hsufB⟩ | ⟨hfalse, _⟩
          swap
          · simp at hfalse
          have hinv' : (preLoops M O dt inp Wd Ht p w).1.player.invincible ≤ 0 := by
            rw [← hp4]
            exact hinvB
          right
          refine ⟨hinvle (hPinv ▸ hinv'), ?_, ⟨a5.player, rfl, by rw [hpB]⟩,
            Or.inl ⟨?_, evs4 ++ preB, sufB, ?_, ?_, hsufB⟩⟩
          · rw [toWorld_lives]
            show a5.lives = w.lives - 1
            rw [hlB, hl4]
          · rw [← hl4]
            exact hnlB
          · rw [hevB, hl4]
          · refine cleanEvs_append ?_ hpreB
            rw [hevE]
            exact cleanEvs_append hPclean (onlyShots_clean hpostE)
      · -- enemy pass resolved the hit; the bullet pass must then be clean
        rcases hEin with ⟨_, hnlE, preE, sufE, hevE, hpreE, hsufE⟩ | ⟨hfalse, _⟩
        swap
        · simp at hfalse
        have hp25 : ({ a4 with enemies := sur } : Act).player.invincible = 2.5 := by
          show a4.player.invincible = 2.5
          rw [hpE]
        rcases hBspec with ⟨hlB, hpB, _, postB, hevB, hpostB⟩ |
          ⟨hinvB, _, _, _⟩
        swap
        · rw [hp25] at hinvB
          norm_num at hinvB
        right
        refine ⟨hinvle (hPinv ▸ hinvE), ?_, ⟨a5.player, rfl, ?_⟩,
          Or.inl ⟨?_, (preLoops M O dt inp Wd Ht p w).2 ++ preE, sufE ++ postB, ?_, ?_, ?_⟩⟩
        · rw [toWorld_lives]
          show a5.lives = w.lives - 1
          have : ({ a4 with enemies := sur } : Act).lives = w.lives - 1 := by
            show a4.lives = w.lives - 1
            rw [hlE, hPlives]
          rw [hlB, this]
        · rw [hpB]
          show ({ a4 with enemies := sur } : Act).player.invincible = 2.5
          exact hp25
        · rw [← hPlives]
          exact hnlE
        · rw [hevB, hevE, hPlives]
          simp [List.append_assoc]
        · exact cleanEvs_append hPclean (onlyShots_clean hpreE)
        · exact cleanEvs_append (onlyShots_clean hsufE) hpostB

theorem spawnedEnemy_points (M : MathOps) (O : Oracle) (lvl : Int) (Wd : ℚ) :
    0 ≤ (spawnedEnemy M O lvl Wd).points := by
  unfold spawnedEnemy
  by_cases h1 : O.spawn.rType1 < 0.15 + (lvl : ℚ) * 0.05
  · rw [if_pos h1]
    show (0 : Int) ≤ 250
    norm_num
  · rw [if_neg h1]
    by_cases h2 : O.spawn.rType2 < 0.3
    · rw [if_pos h2]
      show (0 : Int) ≤ 150
      norm_num
    · rw [if_neg h2]
      show (0 : Int) ≤ 100
      norm_num

/-- `update` never decreases the score, provided every enemy present has a
nonnegative point value and the level is nonnegative (both hold on every
state a run reaches). -/
theorem update_score (M : MathOps) (O : Oracle) (dt : ℚ) (inp : Input) (Wd Ht : ℚ)
    (w : World) (w1 : World) (evs : List Ev)
    (hpts : ∀ e ∈ w.enemies, 0 ≤ e.points) (hlvl : 0 ≤ w.level)
    (hu : update M O dt inp Wd Ht w = (w1, evs)) :
    w.score ≤ w1.score := by
  cases hp : w.player with
  | none =>
    unfold update at hu
    rw [hp] at hu
    simp only [Prod.mk.injEq] at hu
    obtain ⟨h1, _⟩ := hu
    rw [← h1]
  | some p =>
    have hPen : ∀ e ∈ (preLoops M O dt inp Wd Ht p w).1.enemies, 0 ≤ e.points := by
      rcases preLoops_enemies M O dt inp Wd Ht p w with hsp | hsp <;> rw [hsp]
      · exact hpts
      · intro x hx
        rcases List.mem_append.1 hx with hx | hx
        · exact hpts x hx
        · have hx2 : x = spawnedEnemy M O w.level Wd := by simpa using hx
          rw [hx2]
          exact spawnedEnemy_points M O w.level Wd
    unfold update at hu
    rw [hp] at hu
    simp only [] at hu
    rcases hE : goE M O dt Wd Ht (preLoops M O dt inp Wd Ht p w).1
        (preLoops M O dt inp Wd Ht p w).2
        (preLoops M O dt inp Wd Ht p w).1.enemies.reverse with ⟨a4, sur, evs4, h4⟩
    obtain ⟨hEs, hEv, _, _⟩ := goE_spec M O dt Wd Ht _ _ _ _ _ _ _ hE
    have hsur : ∀ e ∈ sur, 0 ≤ e.points :=
      goE_points M O dt Wd Ht _ _ _ _ _ _ _ hE
        (fun e he => hPen e (List.mem_reverse.1 he))
    have ha4s : a4.score = w.score := by
      rw [hEs, preLoops_score]
    have ha4v : a4.level = w.level := by
      rw [hEv, preLoops_level]
    cases h4 with
    | true =>
      rw [hE] at hu
      simp only [Prod.mk.injEq] at hu
      obtain ⟨hw1, _⟩ := hu
      rw [← hw1, toWorld_score]
      show w.score ≤ a4.score
      rw [ha4s]
    | false =>
      rw [hE] at hu
      simp only [] at hu
      rcases hB : goB M O dt Wd Ht { a4 with enemies := sur } evs4
          ({ a4 with enemies := sur }).bullets.reverse with ⟨a5, bsur, evs5, h5⟩
      obtain ⟨hBs, _, _⟩ := goB_score M O dt Wd Ht _ _ _ _ _ _ _ hB
        (by show 0 ≤ a4.level; rw [ha4v]; exact hlvl)
        (by show ∀ e ∈ sur, 0 ≤ e.points; exact hsur)
      have hBs2 : w.score ≤ a5.score := by
        rw [← ha4s]
        exact hBs
      cases h5 with
      | true =>
        rw [hB] at hu
        simp only [Prod.mk.injEq] at hu
        obtain ⟨hw1, _⟩ := hu
        rw [← hw1, toWorld_score]
        exact hBs2
      | false =>
        rw [hB] at hu
        simp only [Prod.mk.injEq] at hu
        obtain ⟨hw1, _⟩ := hu
        rw [← hw1, toWorld_score]
        exact hBs2

theorem stepDown (c : Prop) [Decidable c] (x d : ℚ) (h0 : 0 ≤ x) (hd : 0 ≤ d) :
    0 ≤ (if c then max 0 (x - d) else x) ∧ (if c then max 0 (x - d) else x) ≤ x := by
  split_ifs with h
  · exact ⟨le_max_left 0 _, max_le h0 (by linarith)⟩
  · exact ⟨h0, le_refl x⟩

theorem stepUp (c : Prop) [Decidable c] (x d hi : ℚ) (h0 : 0 ≤ x) (h1 : x ≤ hi)
    (hd : 0 ≤ d) :
    0 ≤ (if c then min hi (x + d) else x) ∧ (if c then min hi (x + d) else x) ≤ hi := by
  split_ifs with h
  · exact ⟨le_min (h0.trans h1) (by linarith), min_le_left hi _⟩
  · exact ⟨h0, h1⟩

theorem negFac_nonneg (s m : ℚ) (hs : 0 ≤ s) :
    0 ≤ s * (if m < -0.1 then |m| else 1) := by
  apply mul_nonneg hs
  split_ifs
  · exact abs_nonneg m
  · norm_num

theorem posFac_nonneg (s m : ℚ) (hs : 0 ≤ s) :
    0 ≤ s * (if m > 0.1 then m else 1) := by
  apply mul_nonneg hs
  split_ifs with h
  · have h1 : (0 : ℚ) < 0.1 := by norm_num
    linarith
  · norm_num

/-! ## The claims -/

/-- **C8.** If the player's position lies within
`[0, viewportWidth − playerWidth] × [0, viewportHeight − playerHeight]`
before an update step, then after the movement phase of that step — for
every combination of digital key intent and analog joystick intent — it
still lies within that box (and the player's box dimensions are unchanged):
the player never partially or fully leaves the screen. -/
theorem c8_player_in_bounds (M : MathOps) (dt Wd Ht : ℚ) (inp : Input) (p : Player)
    (hdt : 0 ≤ dt) (hsp : 0 ≤ p.speed)
    (hx0 : 0 ≤ p.pos.x) (hx1 : p.pos.x ≤ Wd - p.width)
    (hy0 : 0 ≤ p.pos.y) (hy1 : p.pos.y ≤ Ht - p.height) :
    (movementPhase M dt Wd Ht inp p).width = p.width ∧
    (movementPhase M dt Wd Ht inp p).height = p.height ∧
    0 ≤ (movementPhase M dt Wd Ht inp p).pos.x ∧
    (movementPhase M dt Wd Ht inp p).pos.x ≤ Wd - p.width ∧
    0 ≤ (movementPhase M dt Wd Ht inp p).pos.y ∧
    (movementPhase M dt Wd Ht inp p).pos.y ≤ Ht - p.height := by
  have hspd : 0 ≤ p.speed * dt := mul_nonneg hsp hdt
  refine ⟨rfl, rfl, ?_, ?_, ?_, ?_⟩ <;> simp only [movementPhase]
  · obtain ⟨ha, hb⟩ := stepDown ((inp.left = true ∨ (joyvec M inp.joystick).1 < -0.1) ∧
        p.pos.x > 0) p.pos.x
        (p.speed * dt * (if (joyvec M inp.joystick).1 < -0.1 then |(joyvec M inp.joystick).1| else 1))
        hx0 (negFac_nonneg (p.speed * dt) (joyvec M inp.joystick).1 hspd)
    exact (stepUp _ _ _ _ ha (hb.trans hx1)
      (posFac_nonneg (p.speed * dt) (joyvec M inp.joystick).1 hspd)).1
  · obtain ⟨ha, hb⟩ := stepDown ((inp.left = true ∨ (joyvec M inp.joystick).1 < -0.1) ∧
        p.pos.x > 0) p.pos.x
        (p.speed * dt * (if (joyvec M inp.joystick).1 < -0.1 then |(joyvec M inp.joystick).1| else 1))
        hx0 (negFac_nonneg (p.speed * dt) (joyvec M inp.joystick).1 hspd)
    exact (stepUp _ _ _ _ ha (hb.trans hx1)
      (posFac_nonneg (p.speed * dt) (joyvec M inp.joystick).1 hspd)).2
  · obtain ⟨ha, hb⟩ := stepDown ((inp.up = true ∨ (joyvec M inp.joystick).2 < -0.1) ∧
        p.pos.y > 0) p.pos.y
        (p.speed * dt * (if (joyvec M inp.joystick).2 < -0.1 then |(joyvec M inp.joystick).2| else 1))
        hy0 (negFac_nonneg (p.speed * dt) (joyvec M inp.joystick).2 hspd)
    exact (stepUp _ _ _ _ ha (hb.trans hy1)
      (posFac_nonneg (p.speed * dt) (joyvec M inp.joystick).2 hspd)).1
  · obtain ⟨ha, hb⟩ := stepDown ((inp.up = true ∨ (joyvec M inp.joystick).2 < -0.1) ∧
        p.pos.y > 0) p.pos.y
        (p.speed * dt * (if (joyvec M inp.joystick).2 < -0.1 then |(joyvec M inp.joystick).2| else 1))
        hy0 (negFac_nonneg (p.speed * dt) (joyvec M inp.joystick).2 hspd)
    exact (stepUp _ _ _ _ ha (hb.trans hy1)
      (posFac_nonneg (p.speed * dt) (joyvec M inp.joystick).2 hspd)).2

/-- **C8 witness**: the bounds theorem applied to the concrete player of the
scenario worlds on an 800×600 viewport with neutral input. -/
theorem c8_witness :
    (movementPhase math0 0.05 800 600 input0 player7).width = player7.width ∧
    (movementPhase math0 0.05 800 600 input0 player7).height = player7.height ∧
    0 ≤ (movementPhase math0 0.05 800 600 input0 player7).pos.x ∧
    (movementPhase math0 0.05 800 600 input0 player7).pos.x ≤ 800 - player7.width ∧
    0 ≤ (movementPhase math0 0.05 800 600 input0 player7).pos.y ∧
    (movementPhase math0 0.05 800 600 input0 player7).pos.y ≤ 600 - player7.height :=
  c8_player_in_bounds math0 0.05 800 600 input0 player7
    (by norm_num) (by with_unfolding_all decide)
    (by with_unfolding_all decide) (by with_unfolding_all decide)
    (by with_unfolding_all decide) (by with_unfolding_all decide)

/-- **C2 (amended).** A surviving player-owned bullet is tested against the
enemies in reverse enemy-list order (most recently appended first) and
resolves against at most one enemy — the last enemy in enemy-list order
whose bounding box its circle intersects; every enemy after that one in the
list is missed by the bullet, and every other enemy is left unchanged by
that bullet in that frame. -/
theorem c2_bullet_resolution (M : MathOps) (O : Oracle) (dt Wd Ht : ℚ) (a : Act)
    (b : Bullet) (hb : b.owner = Owner.player)
    (hs : bulletGone Wd Ht (movedBullet dt b) = false) :
    (bulletEnemyScan (movedBullet dt b) a.enemies = none →
      (boutAct (processBullet M O dt Wd Ht a b)).enemies = a.enemies ∧
      ∀ e ∈ a.enemies, enemyHit (movedBullet dt b) e = false) ∧
    (∀ pre e post, bulletEnemyScan (movedBullet dt b) a.enemies = some (pre, e, post) →
      a.enemies = post.reverse ++ e :: pre.reverse ∧
      enemyHit (movedBullet dt b) e = true ∧
      (∀ x ∈ pre, enemyHit (movedBullet dt b) x = false) ∧
      (boutAct (processBullet M O dt Wd Ht a b)).enemies =
        post.reverse ++
          (if e.hp - b.damage ≤ 0 then [] else [{ e with hp := e.hp - b.damage }]) ++
          pre.reverse) := by
  have hg : ¬(bulletGone Wd Ht (movedBullet dt b) = true) := by
    rw [hs]
    simp
  have ho : (movedBullet dt b).owner = b.owner := rfl
  constructor
  · intro hscan
    unfold processBullet
    rw [if_neg hg]
    simp only [ho, hb, hscan]
    refine ⟨rfl, ?_⟩
    intro e he
    exact hitScan_none (movedBullet dt b) a.enemies.reverse hscan e (List.mem_reverse.2 he)
  · intro pre e post hscan
    obtain ⟨hdec, hhit, hpres⟩ :=
      hitScan_some (movedBullet dt b) a.enemies.reverse pre e post hscan
    have hsplit : a.enemies = post.reverse ++ e :: pre.reverse := by
      have h2 := congrArg List.reverse hdec
      rw [List.reverse_reverse] at h2
      rw [h2]
      simp
    refine ⟨hsplit, hhit, hpres, ?_⟩
    unfold processBullet
    rw [if_neg hg]
    simp only [ho, hb, hscan]
    by_cases hk : e.hp - (movedBullet dt b).damage ≤ 0
    · rw [if_pos hk]
      simp only [boutAct]
      rw [resolveKill_enemies, if_pos (show e.hp - b.damage ≤ 0 from hk)]
      simp
    · rw [if_neg hk]
      simp only [boutAct]
      rw [if_neg (show ¬(e.hp - b.damage ≤ 0) from hk)]
      rfl

/-- **C2 counterexample** to the claim as stated: a player bullet whose
circle lies inside the bounding boxes of both enemies of the list damages
the *second* (later, most recently appended) enemy and leaves the first
untouched — the code scans the enemy array in reverse index order, not
forward order. -/
theorem c2_counterexample :
    enemyHit (movedBullet 0 bullet2) enemy20 = true ∧
    enemyHit (movedBullet 0 bullet2) enemy21 = true ∧
    world2.enemies.map Enemy.hp = [5, 5] ∧
    (update math0 oracle0 0 input0 800 600 world2).1.enemies.map Enemy.hp = [5, 4] := by
  with_unfolding_all decide

/-- **C2 witness**: the resolution theorem applied to the concrete two-enemy
scenario. -/
theorem c2_witness :
    (bulletEnemyScan (movedBullet 0 bullet2) act2.enemies = none →
      (boutAct (processBullet math0 oracle0 0 800 600 act2 bullet2)).enemies =
        act2.enemies ∧
      ∀ e ∈ act2.enemies, enemyHit (movedBullet 0 bullet2) e = false) ∧
    (∀ pre e post,
      bulletEnemyScan (movedBullet 0 bullet2) act2.enemies = some (pre, e, post) →
      act2.enemies = post.reverse ++ e :: pre.reverse ∧
      enemyHit (movedBullet 0 bullet2) e = true ∧
      (∀ x ∈ pre, enemyHit (movedBullet 0 bullet2) x = false) ∧
      (boutAct (processBullet math0 oracle0 0 800 600 act2 bullet2)).enemies =
        post.reverse ++
          (if e.hp - bullet2.damage ≤ 0 then []
           else [{ e with hp := e.hp - bullet2.damage }]) ++
          pre.reverse) :=
  c2_bullet_resolution math0 oracle0 0 800 600 act2 bullet2
    (by with_unfolding_all decide) (by with_unfolding_all decide)

/-- **C1.** Within a run (a step entered with at least one life), lives are
monotonically non-increasing under `update`, drop by at most one, and never
go below 0; the game-over notification fires exactly when lives transition
to 0 in this step, and when it fires it carries the final score, is the last
event of the step, and fires exactly once. -/
theorem c1_lives_gameover (M : MathOps) (O : Oracle) (dt : ℚ) (inp : Input)
    (Wd Ht : ℚ) (w w1 : World) (evs : List Ev)
    (hl : 1 ≤ w.lives) (hu : update M O dt inp Wd Ht w = (w1, evs)) :
    (w1.lives ≤ w.lives ∧ w.lives - 1 ≤ w1.lives ∧ 0 ≤ w1.lives) ∧
    ((∃ n, Ev.gameOver n ∈ evs) ↔ w1.lives = 0) ∧
    (∀ n, Ev.gameOver n ∈ evs →
      n = w1.score ∧ ∃ pre, evs = pre ++ [Ev.gameOver n] ∧ ∀ m, Ev.gameOver m ∉ pre) := by
  cases hp : w.player with
  | none =>
    unfold update at hu
    rw [hp] at hu
    simp only [Prod.mk.injEq] at hu
    obtain ⟨h1, h2⟩ := hu
    rw [← h1, ← h2]
    refine ⟨⟨le_refl _, by omega, by omega⟩, ?_, ?_⟩
    · constructor
      · rintro ⟨n, hn⟩
        cases hn
      · intro h0
        omega
    · intro n hn
      cases hn
  | some p =>
    rcases update_master M O dt inp Wd Ht w p w1 evs hp hu with
      ⟨hlv, _, hcl⟩ | ⟨_, hlv, _, hin⟩
    · refine ⟨⟨le_of_eq hlv, by omega, by omega⟩, ?_, ?_⟩
      · constructor
        · rintro ⟨n, hn⟩
          exact absurd rfl ((hcl _ hn).2.2.2 n)
        · intro h0
          exact absurd h0 (by omega)
      · intro n hn
        exact absurd rfl ((hcl _ hn).2.2.2 n)
    · rcases hin with ⟨hnl, pre, suf, hev, hpre, hsuf⟩ | ⟨hle, pre, hev, hpre⟩
      · refine ⟨⟨by omega, by omega, by omega⟩, ?_, ?_⟩
        · constructor
          · rintro ⟨n, hn⟩
            rw [hev] at hn
            rcases List.mem_append.1 hn with hn | hn
            · rcases List.mem_append.1 hn with hn | hn
              · exact absurd rfl ((hpre _ hn).2.2.2 n)
              · simp at hn
            · exact absurd rfl ((hsuf _ hn).2.2.2 n)
          · intro h0
            exact absurd h0 (by omega)
        · intro n hn
          rw [hev] at hn
          rcases List.mem_append.1 hn with hn | hn
          · rcases List.mem_append.1 hn with hn | hn
            · exact absurd rfl ((hpre _ hn).2.2.2 n)
            · simp at hn
          · exact absurd rfl ((hsuf _ hn).2.2.2 n)
      · have hlv0 : w1.lives = 0 := by omega
        refine ⟨⟨by omega, by omega, by omega⟩, ?_, ?_⟩
        · constructor
          · intro _
            exact hlv0
          · intro _
            refine ⟨w1.score, ?_⟩
            rw [hev]
            simp
        · intro n hn
          rw [hev] at hn
          have hn2 : n = w1.score := by
            rcases List.mem_append.1 hn with hn | hn
            · exact absurd rfl ((hpre _ hn).2.2.2 n)
            · simp at hn
              exact hn
          subst hn2
          refine ⟨rfl, pre ++ [Ev.damage, Ev.livesChanged (w.lives - 1), Ev.gameOverSfx],
            ?_, ?_⟩
          · rw [hev]
            simp
          · intro m hm
            rcases List.mem_append.1 hm with hm | hm
            · exact absurd rfl ((hpre _ hm).2.2.2 m)
            · simp at hm

/-- **C1 witness**: the theorem applied to a concrete three-life world. -/
theorem c1_witness :
    (((update math0 oracle0 0.05 input0 800 600 world1).1.lives ≤ world1.lives ∧
      world1.lives - 1 ≤ (update math0 oracle0 0.05 input0 800 600 world1).1.lives ∧
      0 ≤ (update math0 oracle0 0.05 input0 800 600 world1).1.lives) ∧
     ((∃ n, Ev.gameOver n ∈ (update math0 oracle0 0.05 input0 800 600 world1).2) ↔
       (update math0 oracle0 0.05 input0 800 600 world1).1.lives = 0) ∧
     (∀ n, Ev.gameOver n ∈ (update math0 oracle0 0.05 input0 800 600 world1).2 →
       n = (update math0 oracle0 0.05 input0 800 600 world1).1.score ∧
       ∃ pre, (update math0 oracle0 0.05 input0 800 600 world1).2 =
           pre ++ [Ev.gameOver n] ∧ ∀ m, Ev.gameOver m ∉ pre)) :=
  c1_lives_gameover math0 oracle0 0.05 input0 800 600 world1 _ _
    (by with_unfolding_all decide) rfl

/-- **C3 (amended).** If an update step begins with strictly more
invincibility time left than the step's `dt` (so the counter is still
positive after the movement-phase decrement), then no collision with any
enemy body or enemy-owned bullet during that step reduces lives, and no
damage notification fires. -/
theorem c3_invincibility_blocks_damage (M : MathOps) (O : Oracle) (dt : ℚ)
    (inp : Input) (Wd Ht : ℚ) (w : World) (p : Player) (w1 : World) (evs : List Ev)
    (hp : w.player = some p) (hinv : dt < p.invincible)
    (hu : update M O dt inp Wd Ht w = (w1, evs)) :
    w1.lives = w.lives ∧ Ev.damage ∉ evs := by
  rcases update_master M O dt inp Wd Ht w p w1 evs hp hu with
    ⟨hlv, _, hcl⟩ | ⟨hle, _, _, _⟩
  · exact ⟨hlv, fun hm => (hcl _ hm).1 rfl⟩
  · linarith

/-- **C3 counterexample** to the claim as stated: the step begins with a
strictly positive invincibility counter (0.01), yet with `dt = 0.05` the
counter is floored to zero before the collision checks, the overlapping
enemy damages the player, lives drop from 3 to 2 and the damage
notification fires. -/
theorem c3_counterexample :
    world3.player = some player3 ∧ 0 < player3.invincible ∧
    world3.lives = 3 ∧
    (update math0 oracle0 0.05 input0 800 600 world3).1.lives = 2 ∧
    Ev.damage ∈ (update math0 oracle0 0.05 input0 800 600 world3).2 := by
  with_unfolding_all decide

/-- **C3 witness**: the amended theorem applied to a player with 5 seconds
of invincibility left facing a bullet and two enemies. -/
theorem c3_witness :
    (update math0 oracle0 0.05 input0 800 600 world2).1.lives = world2.lives ∧
    Ev.damage ∉ (update math0 oracle0 0.05 input0 800 600 world2).2 :=
  c3_invincibility_blocks_damage math0 oracle0 0.05 input0 800 600 world2 player2 _ _
    rfl (by with_unfolding_all decide) rfl

/-- **C4.** Score is monotonically non-decreasing under `update` (given the
run invariants that enemy point values and the level are nonnegative), and
every kill resolution of an enemy worth `points` at level `L` adds exactly
`points × L` to the score and fires a score-changed notification carrying
the new total. -/
theorem c4_score (M : MathOps) (O : Oracle) (dt : ℚ) (inp : Input) (Wd Ht : ℚ)
    (w w1 : World) (evs : List Ev)
    (hpts : ∀ e ∈ w.enemies, 0 ≤ e.points) (hlvl : 0 ≤ w.level)
    (hu : update M O dt inp Wd Ht w = (w1, evs)) :
    w.score ≤ w1.score ∧
    ∀ (e : Enemy) (a : Act),
      (resolveKill M O Wd Ht e a).1.score = a.score + e.points * a.level ∧
      Ev.scoreChanged (a.score + e.points * a.level) ∈ (resolveKill M O Wd Ht e a).2 := by
  refine ⟨update_score M O dt inp Wd Ht w w1 evs hpts hlvl hu, ?_⟩
  intro e a
  exact ⟨(resolveKill_spec M O Wd Ht e a).1,
         (resolveKill_spec M O Wd Ht e a).2.2.2.2.2.2.2.1⟩

/-- **C4 witness**: the theorem applied to a concrete enemy-free world. -/
theorem c4_witness :
    world1.score ≤ (update math0 oracle0 0.05 input0 800 600 world1).1.score ∧
    ∀ (e : Enemy) (a : Act),
      (resolveKill math0 oracle0 800 600 e a).1.score = a.score + e.points * a.level ∧
      Ev.scoreChanged (a.score + e.points * a.level) ∈
        (resolveKill math0 oracle0 800 600 e a).2 :=
  c4_score math0 oracle0 0.05 input0 800 600 world1 _ _
    (by with_unfolding_all decide) (by with_unfolding_all decide) rfl

/-- **C5.** A kill increments the cumulative kill counter by exactly one,
and the level increments by exactly one exactly when the new kill count is a
multiple of 12, with the level-changed notification firing exactly then.
The new level is a function of the kill counter and old level alone — it
does not depend on the score or the elapsed time. -/
theorem c5_level_up (M : MathOps) (O : Oracle) (Wd Ht : ℚ) (e : Enemy) (a : Act) :
    (resolveKill M O Wd Ht e a).1.wave = a.wave + 1 ∧
    (resolveKill M O Wd Ht e a).1.level =
      (if (a.wave + 1).tmod 12 = 0 then a.level + 1 else a.level) ∧
    (Ev.levelChanged (a.level + 1) ∈ (resolveKill M O Wd Ht e a).2 ↔
      (a.wave + 1).tmod 12 = 0) :=
  ⟨(resolveKill_spec M O Wd Ht e a).2.2.1,
   (resolveKill_spec M O Wd Ht e a).2.1,
   (resolveKill_spec M O Wd Ht e a).2.2.2.2.2.2.2.2⟩

/-- **C5 witness**: the theorem applied to the twelfth kill of a run — the
kill counter reaches 12 and the level rises from 1 to 2. -/
theorem c5_witness :
    (resolveKill math0 oracle0 800 600 enemy20 act1).1.wave = act1.wave + 1 ∧
    (resolveKill math0 oracle0 800 600 enemy20 act1).1.level =
      (if (act1.wave + 1).tmod 12 = 0 then act1.level + 1 else act1.level) ∧
    (Ev.levelChanged (act1.level + 1) ∈ (resolveKill math0 oracle0 800 600 enemy20 act1).2 ↔
      (act1.wave + 1).tmod 12 = 0) :=
  c5_level_up math0 oracle0 800 600 enemy20 act1

/-- **C6.** When the accumulated spawn timer reaches the current spawn
interval, exactly one new enemy is appended to the enemy collection, the
timer is reset to zero, and the interval becomes
`max(0.5, oldInterval − level × 0.05)`; consequently (given the run
invariants `0.5 ≤ interval` and `0 ≤ level`) the spawn interval never
increases and never drops below 0.5. -/
theorem c6_spawn_tick (M : MathOps) (O : Oracle) (dt Wd : ℚ) (a : Act)
    (hint : 0.5 ≤ a.enemySpawnInterval) (hlvl : 0 ≤ a.level) :
    (a.enemySpawnTimer + dt ≥ a.enemySpawnInterval →
      (spawnPhase M O dt Wd a).enemies = a.enemies ++ [spawnedEnemy M O a.level Wd] ∧
      (spawnPhase M O dt Wd a).enemySpawnTimer = 0 ∧
      (spawnPhase M O dt Wd a).enemySpawnInterval =
        max 0.5 (a.enemySpawnInterval - (a.level : ℚ) * 0.05)) ∧
    (spawnPhase M O dt Wd a).enemySpawnInterval ≤ a.enemySpawnInterval ∧
    0.5 ≤ (spawnPhase M O dt Wd a).enemySpawnInterval := by
  unfold spawnPhase
  by_cases h : a.enemySpawnTimer + dt ≥ a.enemySpawnInterval
  · rw [if_pos h]
    refine ⟨fun _ => ⟨rfl, rfl, rfl⟩, ?_, le_max_left _ _⟩
    show max 0.5 (a.enemySpawnInterval - (a.level : ℚ) * 0.05) ≤ a.enemySpawnInterval
    apply max_le hint
    have hnn : (0 : ℚ) ≤ (a.level : ℚ) * 0.05 :=
      mul_nonneg (by exact_mod_cast hlvl) (by norm_num)
    linarith
  · rw [if_neg h]
    exact ⟨fun hc => absurd hc h, le_refl _, hint⟩

/-- **C6 witness**: the theorem applied to a fresh run state (interval 1.8,
level 1). -/
theorem c6_witness :
    (act1.enemySpawnTimer + 0.05 ≥ act1.enemySpawnInterval →
      (spawnPhase math0 oracle0 0.05 800 act1).enemies =
        act1.enemies ++ [spawnedEnemy math0 oracle0 act1.level 800] ∧
      (spawnPhase math0 oracle0 0.05 800 act1).enemySpawnTimer = 0 ∧
      (spawnPhase math0 oracle0 0.05 800 act1).enemySpawnInterval =
        max 0.5 (act1.enemySpawnInterval - (act1.level : ℚ) * 0.05)) ∧
    (spawnPhase math0 oracle0 0.05 800 act1).enemySpawnInterval ≤
      act1.enemySpawnInterval ∧
    0.5 ≤ (spawnPhase math0 oracle0 0.05 800 act1).enemySpawnInterval :=
  c6_spawn_tick math0 oracle0 0.05 800 act1
    (by with_unfolding_all decide) (by with_unfolding_all decide)

/-- **C7.** The claim says a dart (type 1) can never fire because its base
shoot interval 99 is a never-shoots sentinel.  The code, however, jitters
the per-enemy interval by `×(0.8 + rand·0.4)` at spawn and compares the
*jittered* value against the sentinel threshold 90, and the initial shoot
timer is a random phase in `[0, 99)`: under the draws of `oracle7` the
spawned dart has interval 79.2 < 90 and timer 80, so on the very next step
it fires an enemy-owned bullet and the enemy-fire notification is emitted —
the code contradicts the specified never-shoots behaviour. -/
theorem c7_dart_fires :
    enemy7.type = 1 ∧ enemy7.shootInterval < 90 ∧
    (∀ e ∈ world7.enemies, e.type = 1) ∧
    Ev.enemyShoot ∈ (update math0 oracle7 0.05 input0 800 600 world7).2 ∧
    (∃ b ∈ (update math0 oracle7 0.05 input0 800 600 world7).1.bullets,
      b.owner = Owner.enemy) := by
  with_unfolding_all decide

/-- **C9.** Invoked before a run has been initialised (no player entity),
`update` is a no-op: it returns the World State unchanged and emits no UI or
audio notification; `render` likewise does not run its drawing pass and
leaves the World State untouched. -/
theorem c9_uninitialised_noop (M : MathOps) (O : Oracle) (dt : ℚ) (inp : Input)
    (Wd Ht : ℚ) (w : World) (h : w.player = none) :
    update M O dt inp Wd Ht w = (w, []) ∧ render w = (w, false) := by
  constructor
  · unfold update
    rw [h]
  · unfold render
    rw [h]

/-- **C9 witness**: the theorem applied to the uninitialised world. -/
theorem c9_witness :
    update math0 oracle0 0.05 input0 800 600 baseWorld = (baseWorld, []) ∧
    render baseWorld = (baseWorld, false) :=
  c9_uninitialised_noop math0 oracle0 0.05 input0 800 600 baseWorld rfl

/-- **C10.** In any single `update` call lives decrease by at most one, no
matter how many enemy bodies and enemy-owned bullets overlap the player:
the first damaging collision sets the invincibility counter to 2.5 and every
later collision test in the same step re-checks it, so whenever lives did
drop, the step ends with the player's invincibility equal to 2.5. -/
theorem c10_at_most_one_life (M : MathOps) (O : Oracle) (dt : ℚ) (inp : Input)
    (Wd Ht : ℚ) (w w1 : World) (evs : List Ev)
    (hu : update M O dt inp Wd Ht w = (w1, evs)) :
    w.lives - 1 ≤ w1.lives ∧ w1.lives ≤ w.lives ∧
    (w1.lives < w.lives → ∃ p1, w1.player = some p1 ∧ p1.invincible = 2.5) := by
  cases hp : w.player with
  | none =>
    unfold update at hu
    rw [hp] at hu
    simp only [Prod.mk.injEq] at hu
    obtain ⟨h1, _⟩ := hu
    rw [← h1]
    exact ⟨by omega, le_refl _, fun hlt => absurd hlt (lt_irrefl _)⟩
  | some p =>
    rcases update_master M O dt inp Wd Ht w p w1 evs hp hu with
      ⟨hlv, _, _⟩ | ⟨_, hlv, hpl, _⟩
    · rw [hlv]
      exact ⟨by omega, le_refl _, fun hlt => absurd hlt (lt_irrefl _)⟩
    · rw [hlv]
      exact ⟨by omega, by omega, fun _ => hpl⟩

/-- **C10 witness**: the theorem applied to the overlapping-enemy scenario,
in which one life is in fact lost. -/
theorem c10_witness :
    world3.lives - 1 ≤ (update math0 oracle0 0.05 input0 800 600 world3).1.lives ∧
    (update math0 oracle0 0.05 input0 800 600 world3).1.lives ≤ world3.lives ∧
    ((update math0 oracle0 0.05 input0 800 600 world3).1.lives < world3.lives →
      ∃ p1, (update math0 oracle0 0.05 input0 800 600 world3).1.player = some p1 ∧
        p1.invincible = 2.5) :=
  c10_at_most_one_life math0 oracle0 0.05 input0 800 600 world3 _ _ rfl

end Game
